import Mathlib

/-!
Verification of the grid/hex-grid core of an Advent-of-Code utility library.

The Rust source (src/aoc/src/lib.rs) is shallowly embedded:
sparse `HashMap`-backed grids become association lists, dense
`Vec<Vec<T>>` grids become `List (List T)` with panicking index
operations modelled by `Option`, machine-integer casts (`as usize`,
`as u32`, `as i64`) become explicit `emod` wrap functions, and the
`rem_euclid`/truncating-division primitives of Rust become `Int.emod`
and `Int.tdiv`.
-/

/-- Rust type `Point = [i64; 2]`, modelled as a pair of integers. -/
abbrev Point : Type := Int × Int

/-- Rust type `Vec3 = [i64; 3]`, modelled as a triple of integers. -/
abbrev Vec3 : Type := Int × Int × Int

/-- Source `point_add` (vecmath `vec2_add`). -/
def point_add (a b : Point) : Point := (a.1 + b.1, a.2 + b.2)

/-- Source `vec_add` (vecmath `vec3_add`). -/
def vec_add (a b : Vec3) : Vec3 := (a.1 + b.1, a.2.1 + b.2.1, a.2.2 + b.2.2)

/-- Source `vec_sub` (vecmath `vec3_sub`). -/
def vec_sub (a b : Vec3) : Vec3 := (a.1 - b.1, a.2.1 - b.2.1, a.2.2 - b.2.2)

/-- Rust `as usize` cast of an `i64` value: wrap modulo 2^64. -/
def usizeOfI64 (x : Int) : Nat := (x % (2 ^ 64)).toNat

/-- Rust `as u32` cast of an `i64` value: wrap modulo 2^32. -/
def u32OfI64 (x : Int) : Nat := (x % (2 ^ 32)).toNat

/-- Rust `as i64` cast of a `usize` value: wrap modulo 2^64, two's complement. -/
def i64OfUsize (n : Nat) : Int :=
  if n % 2 ^ 64 < 2 ^ 63 then ((n % 2 ^ 64 : Nat) : Int)
  else ((n % 2 ^ 64 : Nat) : Int) - 2 ^ 64

/-- `iter().min().unwrap_or(0)` over a list of integers. -/
def listMinD (l : List Int) : Int :=
  match l with
  | [] => 0
  | x :: xs => xs.foldl min x

/-- `iter().max().unwrap_or(0)` over a list of integers. -/
def listMaxD (l : List Int) : Int :=
  match l with
  | [] => 0
  | x :: xs => xs.foldl max x

/-- First-match association-list lookup; models `HashMap::get` for maps
whose keys are unique. -/
def lookupA {κ T : Type} [DecidableEq κ] (g : List (κ × T)) (k : κ) : Option T :=
  match g with
  | [] => none
  | e :: rest => if e.1 = k then some e.2 else lookupA rest k

theorem lookupA_map_inj {κ T : Type} [DecidableEq κ] (f : κ → κ)
    (hf : Function.Injective f) (g : List (κ × T)) (c : κ) :
    lookupA (g.map (fun e => (f e.1, e.2))) (f c) = lookupA g c := by
  induction g with
  | nil => rfl
  | cons e rest ih =>
    simp only [List.map_cons, lookupA]
    by_cases h : e.1 = c
    · simp [h]
    · have : ¬ f e.1 = f c := fun hc => h (hf hc)
      simp [h, this, ih]

theorem foldl_min_le (xs : List Int) (acc : Int) :
    xs.foldl min acc ≤ acc ∧ ∀ x ∈ xs, xs.foldl min acc ≤ x := by
  induction xs generalizing acc with
  | nil => simp
  | cons a l ih =>
    have hstep : (a :: l).foldl min acc = l.foldl min (min acc a) := rfl
    refine ⟨?_, ?_⟩
    · rw [hstep]
      exact le_trans (ih (min acc a)).1 (min_le_left _ _)
    · intro x hx
      rcases List.mem_cons.mp hx with hx | hx
      · subst hx
        rw [hstep]
        exact le_trans (ih (min acc x)).1 (min_le_right _ _)
      · exact (ih (min acc a)).2 x hx

theorem le_foldl_max (xs : List Int) (acc : Int) :
    acc ≤ xs.foldl max acc ∧ ∀ x ∈ xs, x ≤ xs.foldl max acc := by
  induction xs generalizing acc with
  | nil => simp
  | cons a l ih =>
    have hstep : (a :: l).foldl max acc = l.foldl max (max acc a) := rfl
    refine ⟨?_, ?_⟩
    · rw [hstep]
      exact le_trans (le_max_left _ _) (ih (max acc a)).1
    · intro x hx
      rcases List.mem_cons.mp hx with hx | hx
      · subst hx
        rw [hstep]
        exact le_trans (le_max_right _ _) (ih (max acc x)).1
      · exact (ih (max acc a)).2 x hx

theorem listMinD_le_of_mem {l : List Int} {x : Int} (h : x ∈ l) : listMinD l ≤ x := by
  cases l with
  | nil => cases h
  | cons a xs =>
    rcases List.mem_cons.mp h with h | h
    · subst h; exact (foldl_min_le xs x).1
    · exact (foldl_min_le xs a).2 x h

theorem le_listMaxD_of_mem {l : List Int} {x : Int} (h : x ∈ l) : x ≤ listMaxD l := by
  cases l with
  | nil => cases h
  | cons a xs =>
    rcases List.mem_cons.mp h with h | h
    · subst h; exact (le_foldl_max xs x).1
    · exact (le_foldl_max xs a).2 x h

/-! ### Hex coordinate conversions (source lines 1568-1592) -/

/-- Source `axial_to_cube`. -/
def axial_to_cube (axial : Point) : Vec3 :=
  (axial.1, -axial.1 - axial.2, axial.2)

/-- Source `cube_to_axial`. -/
def cube_to_axial (cube : Vec3) : Point :=
  (cube.1, cube.2.2)

/-- Source `cube_to_oddr`: `col = x + (z - z.rem_euclid(2)) / 2`, `row = z`.
Rust `rem_euclid` is `Int.emod`; Rust `/` truncates, which is `Int.tdiv`. -/
def cube_to_oddr (cube : Vec3) : Point :=
  (cube.1 + Int.tdiv (cube.2.2 - cube.2.2.emod 2) 2, cube.2.2)

/-- Source `oddr_to_cube`: `x = col - (row - row.rem_euclid(2)) / 2`,
`z = row`, `y = -x - z`. -/
def oddr_to_cube (oddr : Point) : Vec3 :=
  (oddr.1 - Int.tdiv (oddr.2 - oddr.2.emod 2) 2,
   -(oddr.1 - Int.tdiv (oddr.2 - oddr.2.emod 2) 2) - oddr.2,
   oddr.2)

/-! ### Hex grid backend: `HashMap<Vec3, T>` as an association list -/

/-- A hex grid: the `HashMap<Vec3, T>` backend, as an association list. -/
abbrev HGrid (T : Type) : Type := List (Vec3 × T)

namespace HGrid

variable {T : Type}

/-- Source `HexGrid::get_value` for the `HashMap` backend. -/
def get_value (g : HGrid T) (pos : Vec3) : Option T := lookupA g pos

/-- Source `HexGrid::oddr_extents`: min/max of the oddr projections of the
keys, `unwrap_or(0)` on an empty map. -/
def oddr_extents (g : HGrid T) : Point × Point :=
  ((listMinD (g.map (fun e => (cube_to_oddr e.1).1)),
    listMinD (g.map (fun e => (cube_to_oddr e.1).2))),
   (listMaxD (g.map (fun e => (cube_to_oddr e.1).1)),
    listMaxD (g.map (fun e => (cube_to_oddr e.1).2))))

/-- The pivot computed identically at the head of every hex flip/rotation:
`mid = ((max - min + 1) / 2)` of the oddr extents, converted to cube.
(The division is Rust `/` on non-negative values.) -/
def pivot (g : HGrid T) : Vec3 :=
  let e := oddr_extents g
  oddr_to_cube (Int.tdiv (e.2.1 - e.1.1 + 1) 2, Int.tdiv (e.2.2 - e.1.2 + 1) 2)

/-- Source `flip_horizontal` (hex): reflect the oddr column within the
oddr extents, rebuilding the map. -/
def flip_horizontal (g : HGrid T) : HGrid T :=
  let e := oddr_extents g
  g.map (fun ent =>
    let p := cube_to_oddr ent.1
    (oddr_to_cube (e.2.1 - (p.1 - e.1.1), p.2), ent.2))

/-- Source `flip_vertical` (hex): reflect the oddr row within the
oddr extents. -/
def flip_vertical (g : HGrid T) : HGrid T :=
  let e := oddr_extents g
  g.map (fun ent =>
    let p := cube_to_oddr ent.1
    (oddr_to_cube (p.1, e.2.2 - (p.2 - e.1.2)), ent.2))

/-- Source `flip_x`: `p ↦ pivot + (p-pivot) with y,z swapped`. -/
def flip_x (g : HGrid T) : HGrid T :=
  let pv := pivot g
  g.map (fun ent =>
    let p := vec_sub ent.1 pv
    (vec_add (p.1, p.2.2, p.2.1) pv, ent.2))

/-- Source `flip_y`: swap x and z about the pivot. -/
def flip_y (g : HGrid T) : HGrid T :=
  let pv := pivot g
  g.map (fun ent =>
    let p := vec_sub ent.1 pv
    (vec_add (p.2.2, p.2.1, p.1) pv, ent.2))

/-- Source `flip_z`: swap x and y about the pivot. -/
def flip_z (g : HGrid T) : HGrid T :=
  let pv := pivot g
  g.map (fun ent =>
    let p := vec_sub ent.1 pv
    (vec_add (p.2.1, p.1, p.2.2) pv, ent.2))

/-- Source `rotate_60_cw`: `p ↦ pivot + (-z,-x,-y) of (p-pivot)`. -/
def rotate_60_cw (g : HGrid T) : HGrid T :=
  let pv := pivot g
  g.map (fun ent =>
    let p := vec_sub ent.1 pv
    (vec_add (-p.2.2, -p.1, -p.2.1) pv, ent.2))

/-- Source `rotate_120_cw`: `p ↦ pivot + (y,z,x) of (p-pivot)`. -/
def rotate_120_cw (g : HGrid T) : HGrid T :=
  let pv := pivot g
  g.map (fun ent =>
    let p := vec_sub ent.1 pv
    (vec_add (p.2.1, p.2.2, p.1) pv, ent.2))

/-- Source `rotate_180_cw`: `p ↦ pivot + (-x,-y,-z) of (p-pivot)`. -/
def rotate_180_cw (g : HGrid T) : HGrid T :=
  let pv := pivot g
  g.map (fun ent =>
    let p := vec_sub ent.1 pv
    (vec_add (-p.1, -p.2.1, -p.2.2) pv, ent.2))

/-- Source `rotate_240_cw`: `p ↦ pivot + (z,x,y) of (p-pivot)`. -/
def rotate_240_cw (g : HGrid T) : HGrid T :=
  let pv := pivot g
  g.map (fun ent =>
    let p := vec_sub ent.1 pv
    (vec_add (p.2.2, p.1, p.2.1) pv, ent.2))

/-- Source `rotate_300_cw`: `p ↦ pivot + (-y,-z,-x) of (p-pivot)`. -/
def rotate_300_cw (g : HGrid T) : HGrid T :=
  let pv := pivot g
  g.map (fun ent =>
    let p := vec_sub ent.1 pv
    (vec_add (-p.2.1, -p.2.2, -p.1) pv, ent.2))

end HGrid

/-- The cube-coordinate invariant of the data model: x + y + z = 0. -/
def sumZero (v : Vec3) : Prop := v.1 + v.2.1 + v.2.2 = 0

instance (v : Vec3) : Decidable (sumZero v) := by
  unfold sumZero; infer_instance

/-- Helper: `(z - z.emod 2).tdiv 2` cancels in round trips; we only need
that the term is a function of `z` alone, which it syntactically is. -/
theorem oddr_round_helper (z : Int) :
    Int.tdiv (z - z.emod 2) 2 = Int.tdiv (z - z.emod 2) 2 := rfl

/-- Claim C7: `cube_to_oddr` and `oddr_to_cube` are mutually inverse;
cube → oddr → cube needs the x + y + z = 0 invariant, oddr → cube → oddr
holds for every oddr point (negative rows included). -/
theorem c7_oddr_cube_round_trip :
    (∀ p : Point, cube_to_oddr (oddr_to_cube p) = p) ∧
    (∀ c : Vec3, c.1 + c.2.1 + c.2.2 = 0 → oddr_to_cube (cube_to_oddr c) = c) := by
  constructor
  · intro p
    obtain ⟨col, row⟩ := p
    simp only [oddr_to_cube, cube_to_oddr, Prod.mk.injEq]
    exact ⟨by ring, trivial⟩
  · intro c h
    obtain ⟨x, y, z⟩ := c
    simp only at h
    simp only [oddr_to_cube, cube_to_oddr, Prod.mk.injEq]
    refine ⟨by ring, ?_, trivial⟩
    have hy : y = -x - z := by linarith
    rw [hy]
    ring

/-- Witness for C7 at the cube coordinate (3, -8, 5). -/
theorem c7_oddr_cube_round_trip_witness :
    (3 : Int) + (-8) + 5 = 0 ∧ oddr_to_cube (cube_to_oddr (3, -8, 5)) = (3, -8, 5) :=
  ⟨by decide, c7_oddr_cube_round_trip.2 (3, -8, 5) (by decide)⟩

theorem sumZero_oddr_to_cube (o : Point) : sumZero (oddr_to_cube o) := by
  obtain ⟨c, r⟩ := o
  simp only [sumZero, oddr_to_cube]
  ring

theorem sumZero_pivot {T : Type} (g : HGrid T) : sumZero (HGrid.pivot g) := by
  simp only [HGrid.pivot]
  exact sumZero_oddr_to_cube _

/-- Claim C8: every hex-coordinate constructor returns a triple with
x + y + z = 0, and every hex rotation/flip maps grids whose keys satisfy
the invariant to grids whose keys satisfy it. -/
theorem c8_sum_zero_invariant :
    (∀ a : Point, sumZero (axial_to_cube a)) ∧
    (∀ o : Point, sumZero (oddr_to_cube o)) ∧
    (∀ (T : Type) (g : HGrid T) (e : Vec3 × T), (∀ e0 ∈ g, sumZero e0.1) →
      ((e ∈ HGrid.rotate_60_cw g → sumZero e.1) ∧
       (e ∈ HGrid.rotate_120_cw g → sumZero e.1) ∧
       (e ∈ HGrid.rotate_180_cw g → sumZero e.1) ∧
       (e ∈ HGrid.rotate_240_cw g → sumZero e.1) ∧
       (e ∈ HGrid.rotate_300_cw g → sumZero e.1) ∧
       (e ∈ HGrid.flip_x g → sumZero e.1) ∧
       (e ∈ HGrid.flip_y g → sumZero e.1) ∧
       (e ∈ HGrid.flip_z g → sumZero e.1) ∧
       (e ∈ HGrid.flip_horizontal g → sumZero e.1) ∧
       (e ∈ HGrid.flip_vertical g → sumZero e.1))) := by
  refine ⟨?_, ?_, ?_⟩
  · intro a
    obtain ⟨q, r⟩ := a
    simp only [sumZero, axial_to_cube]
    ring
  · exact sumZero_oddr_to_cube
  · intro T g e hG
    have hp : sumZero (HGrid.pivot g) := sumZero_pivot g
    refine ⟨?_, ?_, ?_, ?_, ?_, ?_, ?_, ?_, ?_, ?_⟩
    all_goals intro he
    case _ => -- rotate_60_cw
      simp only [HGrid.rotate_60_cw, List.mem_map] at he
      obtain ⟨e0, he0, rfl⟩ := he
      have h0 := hG e0 he0
      simp only [sumZero, vec_add, vec_sub] at h0 hp ⊢
      linarith
    case _ =>
      simp only [HGrid.rotate_120_cw, List.mem_map] at he
      obtain ⟨e0, he0, rfl⟩ := he
      have h0 := hG e0 he0
      simp only [sumZero, vec_add, vec_sub] at h0 hp ⊢
      linarith
    case _ =>
      simp only [HGrid.rotate_180_cw, List.mem_map] at he
      obtain ⟨e0, he0, rfl⟩ := he
      have h0 := hG e0 he0
      simp only [sumZero, vec_add, vec_sub] at h0 hp ⊢
      linarith
    case _ =>
      simp only [HGrid.rotate_240_cw, List.mem_map] at he
      obtain ⟨e0, he0, rfl⟩ := he
      have h0 := hG e0 he0
      simp only [sumZero, vec_add, vec_sub] at h0 hp ⊢
      linarith
    case _ =>
      simp only [HGrid.rotate_300_cw, List.mem_map] at he
      obtain ⟨e0, he0, rfl⟩ := he
      have h0 := hG e0 he0
      simp only [sumZero, vec_add, vec_sub] at h0 hp ⊢
      linarith
    case _ =>
      simp only [HGrid.flip_x, List.mem_map] at he
      obtain ⟨e0, he0, rfl⟩ := he
      have h0 := hG e0 he0
      simp only [sumZero, vec_add, vec_sub] at h0 hp ⊢
      linarith
    case _ =>
      simp only [HGrid.flip_y, List.mem_map] at he
      obtain ⟨e0, he0, rfl⟩ := he
      have h0 := hG e0 he0
      simp only [sumZero, vec_add, vec_sub] at h0 hp ⊢
      linarith
    case _ =>
      simp only [HGrid.flip_z, List.mem_map] at he
      obtain ⟨e0, he0, rfl⟩ := he
      have h0 := hG e0 he0
      simp only [sumZero, vec_add, vec_sub] at h0 hp ⊢
      linarith
    case _ =>
      simp only [HGrid.flip_horizontal, List.mem_map] at he
      obtain ⟨e0, he0, rfl⟩ := he
      exact sumZero_oddr_to_cube _
    case _ =>
      simp only [HGrid.flip_vertical, List.mem_map] at he
      obtain ⟨e0, he0, rfl⟩ := he
      exact sumZero_oddr_to_cube _

/-- Witness for C8: the invariant-preservation conjunct applied to the
one-cell grid at cube (1, -1, 0), whose 60-degree image is (0, -1, 1). -/
theorem c8_sum_zero_invariant_witness :
    sumZero ((0 : Int), (-1 : Int), (1 : Int)) :=
  (c8_sum_zero_invariant.2.2 Nat [((1, -1, 0), 1)] (((0 : Int), (-1 : Int), (1 : Int)), 1)
      (by decide)).1 (by decide)

/-! ### C1 / C3: hex rotations as pivot-conjugated coordinate maps -/

/-- The six rotation / three reflection coordinate patterns of the cube
triple, as used verbatim inside the hex transform bodies. -/
def sigma60 (p : Vec3) : Vec3 := (-p.2.2, -p.1, -p.2.1)

def sigma120 (p : Vec3) : Vec3 := (p.2.1, p.2.2, p.1)

def sigma180 (p : Vec3) : Vec3 := (-p.1, -p.2.1, -p.2.2)

def sigma240 (p : Vec3) : Vec3 := (p.2.2, p.1, p.2.1)

def sigma300 (p : Vec3) : Vec3 := (-p.2.1, -p.2.2, -p.1)

def sigmaFlipX (p : Vec3) : Vec3 := (p.1, p.2.2, p.2.1)

def sigmaFlipY (p : Vec3) : Vec3 := (p.2.2, p.2.1, p.1)

def sigmaFlipZ (p : Vec3) : Vec3 := (p.2.1, p.1, p.2.2)

/-- `translate by -pv, apply the pattern, translate back by +pv`. -/
def conjMap (f : Vec3 → Vec3) (pv c : Vec3) : Vec3 := vec_add (f (vec_sub c pv)) pv

theorem rotate_60_cw_as_map {T : Type} (g : HGrid T) :
    HGrid.rotate_60_cw g = g.map (fun e => (conjMap sigma60 (HGrid.pivot g) e.1, e.2)) := rfl

theorem rotate_120_cw_as_map {T : Type} (g : HGrid T) :
    HGrid.rotate_120_cw g = g.map (fun e => (conjMap sigma120 (HGrid.pivot g) e.1, e.2)) := rfl

theorem rotate_180_cw_as_map {T : Type} (g : HGrid T) :
    HGrid.rotate_180_cw g = g.map (fun e => (conjMap sigma180 (HGrid.pivot g) e.1, e.2)) := rfl

theorem rotate_240_cw_as_map {T : Type} (g : HGrid T) :
    HGrid.rotate_240_cw g = g.map (fun e => (conjMap sigma240 (HGrid.pivot g) e.1, e.2)) := rfl

theorem rotate_300_cw_as_map {T : Type} (g : HGrid T) :
    HGrid.rotate_300_cw g = g.map (fun e => (conjMap sigma300 (HGrid.pivot g) e.1, e.2)) := rfl

theorem flip_x_as_map {T : Type} (g : HGrid T) :
    HGrid.flip_x g = g.map (fun e => (conjMap sigmaFlipX (HGrid.pivot g) e.1, e.2)) := rfl

theorem flip_y_as_map {T : Type} (g : HGrid T) :
    HGrid.flip_y g = g.map (fun e => (conjMap sigmaFlipY (HGrid.pivot g) e.1, e.2)) := rfl

theorem flip_z_as_map {T : Type} (g : HGrid T) :
    HGrid.flip_z g = g.map (fun e => (conjMap sigmaFlipZ (HGrid.pivot g) e.1, e.2)) := rfl

theorem vec_add_right_injective (t : Vec3) : Function.Injective (fun c => vec_add c t) := by
  intro a b h
  obtain ⟨a1, a2, a3⟩ := a
  obtain ⟨b1, b2, b3⟩ := b
  simp only [vec_add, Prod.mk.injEq] at h
  refine Prod.ext ?_ (Prod.ext ?_ ?_) <;> simp <;> omega

theorem sigma60_injective : Function.Injective sigma60 := by
  intro a b h
  obtain ⟨a1, a2, a3⟩ := a
  obtain ⟨b1, b2, b3⟩ := b
  simp only [sigma60, Prod.mk.injEq] at h
  refine Prod.ext ?_ (Prod.ext ?_ ?_) <;> simp <;> omega

theorem sigma120_injective : Function.Injective sigma120 := by
  intro a b h
  obtain ⟨a1, a2, a3⟩ := a
  obtain ⟨b1, b2, b3⟩ := b
  simp only [sigma120, Prod.mk.injEq] at h
  refine Prod.ext ?_ (Prod.ext ?_ ?_) <;> simp <;> omega

theorem sigma180_injective : Function.Injective sigma180 := by
  intro a b h
  obtain ⟨a1, a2, a3⟩ := a
  obtain ⟨b1, b2, b3⟩ := b
  simp only [sigma180, Prod.mk.injEq] at h
  refine Prod.ext ?_ (Prod.ext ?_ ?_) <;> simp <;> omega

theorem sigma240_injective : Function.Injective sigma240 := by
  intro a b h
  obtain ⟨a1, a2, a3⟩ := a
  obtain ⟨b1, b2, b3⟩ := b
  simp only [sigma240, Prod.mk.injEq] at h
  refine Prod.ext ?_ (Prod.ext ?_ ?_) <;> simp <;> omega

theorem sigma300_injective : Function.Injective sigma300 := by
  intro a b h
  obtain ⟨a1, a2, a3⟩ := a
  obtain ⟨b1, b2, b3⟩ := b
  simp only [sigma300, Prod.mk.injEq] at h
  refine Prod.ext ?_ (Prod.ext ?_ ?_) <;> simp <;> omega

theorem sigmaFlipX_injective : Function.Injective sigmaFlipX := by
  intro a b h
  obtain ⟨a1, a2, a3⟩ := a
  obtain ⟨b1, b2, b3⟩ := b
  simp only [sigmaFlipX, Prod.mk.injEq] at h
  refine Prod.ext ?_ (Prod.ext ?_ ?_) <;> simp <;> omega

theorem sigmaFlipY_injective : Function.Injective sigmaFlipY := by
  intro a b h
  obtain ⟨a1, a2, a3⟩ := a
  obtain ⟨b1, b2, b3⟩ := b
  simp only [sigmaFlipY, Prod.mk.injEq] at h
  refine Prod.ext ?_ (Prod.ext ?_ ?_) <;> simp <;> omega

theorem sigmaFlipZ_injective : Function.Injective sigmaFlipZ := by
  intro a b h
  obtain ⟨a1, a2, a3⟩ := a
  obtain ⟨b1, b2, b3⟩ := b
  simp only [sigmaFlipZ, Prod.mk.injEq] at h
  refine Prod.ext ?_ (Prod.ext ?_ ?_) <;> simp <;> omega

theorem vec_sub_right_injective (pv : Vec3) : Function.Injective (fun c => vec_sub c pv) := by
  intro a b h
  obtain ⟨a1, a2, a3⟩ := a
  obtain ⟨b1, b2, b3⟩ := b
  simp only [vec_sub, Prod.mk.injEq] at h
  refine Prod.ext ?_ (Prod.ext ?_ ?_) <;> simp <;> omega

theorem conjMap_injective (f : Vec3 → Vec3) (hf : Function.Injective f) (pv : Vec3) :
    Function.Injective (conjMap f pv) := by
  intro a b h
  have h2 : f (vec_sub a pv) = f (vec_sub b pv) :=
    vec_add_right_injective pv h
  exact vec_sub_right_injective pv (hf h2)


/-- One 60-degree rotation, read through the lookup: the stored cell `c`
is carried to `pivot + sigma60(c - pivot)` with its value. -/
theorem rotate_60_cw_lookup {T : Type} (g : HGrid T) (c : Vec3) :
    HGrid.get_value (HGrid.rotate_60_cw g) (conjMap sigma60 (HGrid.pivot g) c) =
    HGrid.get_value g c := by
  rw [rotate_60_cw_as_map]
  exact lookupA_map_inj _ (conjMap_injective _ sigma60_injective _) g c

/-- Six pivot-conjugated 60-degree steps compose to a pure translation:
the linear part of each step is the same order-6 rotation, so the
composite is determined by its value at the origin. -/
theorem conjMap_sigma60_six (q1 q2 q3 q4 q5 q6 c : Vec3) :
    conjMap sigma60 q6 (conjMap sigma60 q5 (conjMap sigma60 q4 (conjMap sigma60 q3
      (conjMap sigma60 q2 (conjMap sigma60 q1 c))))) =
    vec_add c
      (conjMap sigma60 q6 (conjMap sigma60 q5 (conjMap sigma60 q4 (conjMap sigma60 q3
        (conjMap sigma60 q2 (conjMap sigma60 q1 (0, 0, 0))))))) := by
  obtain ⟨c1, c2, c3⟩ := c
  obtain ⟨a1, a2, a3⟩ := q1
  obtain ⟨b1, b2, b3⟩ := q2
  obtain ⟨d1, d2, d3⟩ := q3
  obtain ⟨e1, e2, e3⟩ := q4
  obtain ⟨f1, f2, f3⟩ := q5
  obtain ⟨g1, g2, g3⟩ := q6
  simp only [conjMap, sigma60, vec_add, vec_sub, Prod.mk.injEq]
  refine ⟨by ring, by ring, by ring⟩

/-- Claim C1 (amended): applying `rotate_60_cw` six times yields a pure
translation of the original cell-to-value mapping (each rotation recomputes
its pivot from the current oddr extents, so the six pivots can differ and
the composite is a translation rather than the identity). -/
theorem c1_amended_six_rotations_translate {T : Type} (g : HGrid T) :
    ∃ t : Vec3, ∀ c : Vec3,
      HGrid.get_value
        (HGrid.rotate_60_cw (HGrid.rotate_60_cw (HGrid.rotate_60_cw
          (HGrid.rotate_60_cw (HGrid.rotate_60_cw (HGrid.rotate_60_cw g))))))
        (vec_add c t) =
      HGrid.get_value g c := by
  refine ⟨conjMap sigma60
      (HGrid.pivot (HGrid.rotate_60_cw (HGrid.rotate_60_cw (HGrid.rotate_60_cw
        (HGrid.rotate_60_cw (HGrid.rotate_60_cw g))))))
      (conjMap sigma60
        (HGrid.pivot (HGrid.rotate_60_cw (HGrid.rotate_60_cw
          (HGrid.rotate_60_cw (HGrid.rotate_60_cw g)))))
        (conjMap sigma60
          (HGrid.pivot (HGrid.rotate_60_cw (HGrid.rotate_60_cw (HGrid.rotate_60_cw g))))
          (conjMap sigma60 (HGrid.pivot (HGrid.rotate_60_cw (HGrid.rotate_60_cw g)))
            (conjMap sigma60 (HGrid.pivot (HGrid.rotate_60_cw g))
              (conjMap sigma60 (HGrid.pivot g) (0, 0, 0)))))), ?_⟩
  intro c
  rw [← conjMap_sigma60_six (HGrid.pivot g) (HGrid.pivot (HGrid.rotate_60_cw g))
      (HGrid.pivot (HGrid.rotate_60_cw (HGrid.rotate_60_cw g)))
      (HGrid.pivot (HGrid.rotate_60_cw (HGrid.rotate_60_cw (HGrid.rotate_60_cw g))))
      (HGrid.pivot (HGrid.rotate_60_cw (HGrid.rotate_60_cw
        (HGrid.rotate_60_cw (HGrid.rotate_60_cw g)))))
      (HGrid.pivot (HGrid.rotate_60_cw (HGrid.rotate_60_cw (HGrid.rotate_60_cw
        (HGrid.rotate_60_cw (HGrid.rotate_60_cw g)))))) c]
  rw [rotate_60_cw_lookup, rotate_60_cw_lookup, rotate_60_cw_lookup,
      rotate_60_cw_lookup, rotate_60_cw_lookup, rotate_60_cw_lookup]

/-- The concrete two-cell hex grid refuting C1 as stated. -/
def c1Grid : HGrid Nat := [((0, 0, 0), 1), ((0, -1, 1), 2)]

/-- Counterexample to claim C1 as stated: on the two-cell grid with cells
(0,0,0) and (0,-1,1), six successive `rotate_60_cw` calls translate the
grid by (-1,1,0); the original cell (0,0,0) no longer carries a value, so
the cell-to-value mapping is not restored. -/
theorem c1_counterexample :
    HGrid.get_value
      (HGrid.rotate_60_cw (HGrid.rotate_60_cw (HGrid.rotate_60_cw
        (HGrid.rotate_60_cw (HGrid.rotate_60_cw (HGrid.rotate_60_cw c1Grid))))))
      (0, 0, 0) = none ∧
    HGrid.get_value c1Grid (0, 0, 0) = some 1 := by decide

/-- Claim C3 (amended): every hex rotation and axis flip carries each
stored cell `c` to `pivot + sigma(c - pivot)` for the fixed
permutation/negation pattern `sigma` of that transform, where `pivot` is
`oddr_to_cube` of half the oddr bounding-box dimensions
`((max-min+1)/2)` computed at call time — which coincides with the
bounding-box midpoint only when the box's minimum corner is the origin. -/
theorem c3_amended_pivot_conjugation {T : Type} (g : HGrid T) (c : Vec3) :
    (HGrid.get_value (HGrid.rotate_60_cw g) (conjMap sigma60 (HGrid.pivot g) c) =
      HGrid.get_value g c) ∧
    (HGrid.get_value (HGrid.rotate_120_cw g) (conjMap sigma120 (HGrid.pivot g) c) =
      HGrid.get_value g c) ∧
    (HGrid.get_value (HGrid.rotate_180_cw g) (conjMap sigma180 (HGrid.pivot g) c) =
      HGrid.get_value g c) ∧
    (HGrid.get_value (HGrid.rotate_240_cw g) (conjMap sigma240 (HGrid.pivot g) c) =
      HGrid.get_value g c) ∧
    (HGrid.get_value (HGrid.rotate_300_cw g) (conjMap sigma300 (HGrid.pivot g) c) =
      HGrid.get_value g c) ∧
    (HGrid.get_value (HGrid.flip_x g) (conjMap sigmaFlipX (HGrid.pivot g) c) =
      HGrid.get_value g c) ∧
    (HGrid.get_value (HGrid.flip_y g) (conjMap sigmaFlipY (HGrid.pivot g) c) =
      HGrid.get_value g c) ∧
    (HGrid.get_value (HGrid.flip_z g) (conjMap sigmaFlipZ (HGrid.pivot g) c) =
      HGrid.get_value g c) := by
  refine ⟨rotate_60_cw_lookup g c, ?_, ?_, ?_, ?_, ?_, ?_, ?_⟩
  · rw [rotate_120_cw_as_map]
    exact lookupA_map_inj _ (conjMap_injective _ sigma120_injective _) g c
  · rw [rotate_180_cw_as_map]
    exact lookupA_map_inj _ (conjMap_injective _ sigma180_injective _) g c
  · rw [rotate_240_cw_as_map]
    exact lookupA_map_inj _ (conjMap_injective _ sigma240_injective _) g c
  · rw [rotate_300_cw_as_map]
    exact lookupA_map_inj _ (conjMap_injective _ sigma300_injective _) g c
  · rw [flip_x_as_map]
    exact lookupA_map_inj _ (conjMap_injective _ sigmaFlipX_injective _) g c
  · rw [flip_y_as_map]
    exact lookupA_map_inj _ (conjMap_injective _ sigmaFlipY_injective _) g c
  · rw [flip_z_as_map]
    exact lookupA_map_inj _ (conjMap_injective _ sigmaFlipZ_injective _) g c

/-- Modelled from the spec: the pivot the spec describes, namely `the cube
coordinate of the oddr bounding-box's midpoint` — `oddr_to_cube` of the
componentwise midpoint of the oddr extents. Used only to compare the
spec's pivot with the one the code computes. -/
def specBBoxMidPivot {T : Type} (g : HGrid T) : Vec3 :=
  let e := HGrid.oddr_extents g
  oddr_to_cube (Int.tdiv (e.1.1 + e.2.1) 2, Int.tdiv (e.1.2 + e.2.2) 2)

/-- The concrete one-cell hex grid refuting C3 as stated. -/
def c3Grid : HGrid Nat := [((2, -2, 0), 1)]

/-- Counterexample to claim C3 as stated: for the one-cell grid at cube
(2,-2,0) (oddr (2,0)), the oddr bounding box is the single point (2,0),
whose midpoint pivot would leave the cell fixed by `rotate_60_cw`; the
code instead pivots on `oddr_to_cube((max-min+1)/2) = (0,0,0)` and moves
the cell to (0,-2,2), so no value sits at the spec-predicted image. -/
theorem c3_counterexample :
    HGrid.get_value (HGrid.rotate_60_cw c3Grid)
      (conjMap sigma60 (specBBoxMidPivot c3Grid) (2, -2, 0)) = none ∧
    HGrid.get_value c3Grid (2, -2, 0) = some 1 ∧
    HGrid.get_value (HGrid.rotate_60_cw c3Grid) (0, -2, 2) = some 1 := by decide

/-! ### Bresenham line rasterization (source lines 1206-1233)

The Rust `loop` is modelled with an explicit fuel argument; `plot_line`
supplies `dx - dy + 1` units of fuel, and the correctness lemma shows the
loop always reaches its `break` strictly before the fuel runs out, so the
truncation branch is never taken. -/

/-- The body of the `loop` in the source `plot_line`: push the current
point; stop on reaching the target; otherwise take the guarded x and y
steps of the classic all-octant Bresenham and continue. -/
def plotLineLoop (x1 y1 sx sy dx dy : Int) : Nat → Int → Int → Int → List Point
  | 0, _, _, _ => []
  | fuel + 1, x0, y0, err =>
    (x0, y0) ::
      (if x0 = x1 ∧ y0 = y1 then []
       else
         let e2 := 2 * err
         let err1 := if dy ≤ e2 then err + dy else err
         let x0n := if dy ≤ e2 then x0 + sx else x0
         let err2 := if e2 ≤ dx then err1 + dx else err1
         let y0n := if e2 ≤ dx then y0 + sy else y0
         plotLineLoop x1 y1 sx sy dx dy fuel x0n y0n err2)

/-- Source `plot_line`: `dx = |x1-x0|`, `sx = ±1`, `dy = -|y1-y0|`,
`sy = ±1`, `err = dx + dy`, then the loop. -/
def plot_line (a b : Point) : List Point :=
  plotLineLoop b.1 b.2 (if a.1 < b.1 then 1 else -1) (if a.2 < b.2 then 1 else -1)
    (|b.1 - a.1|) (-|b.2 - a.2|)
    ((|b.1 - a.1|) - (-|b.2 - a.2|) + 1).toNat a.1 a.2 ((|b.1 - a.1|) + (-|b.2 - a.2|))

/-- Adjacent points of a rasterized line differ by at most one in each
axis. -/
def stepOK (p q : Point) : Prop := |q.1 - p.1| ≤ 1 ∧ |q.2 - p.2| ≤ 1

/-- The loop invariant of the embedded Bresenham loop: the remaining
(signed, direction-normalized) distances X, Y are non-negative and within
the initial spans, and the error term is the exact affine combination
`dx + dy - X*dy - Y*dx`. -/
def BresInv (x1 y1 sx sy dx dy x0 y0 err : Int) : Prop :=
  0 ≤ dx ∧ dy ≤ 0 ∧ (sx = 1 ∨ sx = -1) ∧ (sy = 1 ∨ sy = -1) ∧
  0 ≤ sx * (x1 - x0) ∧ sx * (x1 - x0) ≤ dx ∧
  0 ≤ sy * (y1 - y0) ∧ sy * (y1 - y0) ≤ -dy ∧
  err = dx + dy - (sx * (x1 - x0)) * dy - (sy * (y1 - y0)) * dx

theorem bres_no_x_overshoot {x1 y1 sx sy dx dy x0 y0 err : Int}
    (h : BresInv x1 y1 sx sy dx dy x0 y0 err)
    (hX : sx * (x1 - x0) = 0) (hY : 1 ≤ sy * (y1 - y0)) :
    ¬ dy ≤ 2 * err := by
  obtain ⟨hdx, hdy, hsx, hsy, hX0, hXd, hY0, hYd, herr⟩ := h
  intro hc
  have hdyneg : dy ≤ -1 := by linarith
  have herr2 : err = dx + dy - (sy * (y1 - y0)) * dx := by
    rw [herr, hX]; ring
  have hprod : dx ≤ (sy * (y1 - y0)) * dx := le_mul_of_one_le_left hdx hY
  have : err ≤ dy := by linarith
  linarith

theorem bres_no_y_overshoot {x1 y1 sx sy dx dy x0 y0 err : Int}
    (h : BresInv x1 y1 sx sy dx dy x0 y0 err)
    (hY : sy * (y1 - y0) = 0) (hX : 1 ≤ sx * (x1 - x0)) :
    ¬ 2 * err ≤ dx := by
  obtain ⟨hdx, hdy, hsx, hsy, hX0, hXd, hY0, hYd, herr⟩ := h
  intro hc
  have hdxpos : 1 ≤ dx := le_trans hX hXd
  have herr2 : err = dx + dy - (sx * (x1 - x0)) * dy := by
    rw [herr, hY]; ring
  have hprod : (sx * (x1 - x0)) * dy ≤ dy := by nlinarith
  have : dx ≤ err := by linarith
  linarith

theorem bres_advance {x1 y1 sx sy dx dy x0 y0 err : Int}
    (hinv : BresInv x1 y1 sx sy dx dy x0 y0 err)
    (hdone : ¬(x0 = x1 ∧ y0 = y1)) :
    BresInv x1 y1 sx sy dx dy
      (if dy ≤ 2 * err then x0 + sx else x0)
      (if 2 * err ≤ dx then y0 + sy else y0)
      (if 2 * err ≤ dx then (if dy ≤ 2 * err then err + dy else err) + dx
       else (if dy ≤ 2 * err then err + dy else err)) ∧
    sx * (x1 - (if dy ≤ 2 * err then x0 + sx else x0)) +
      sy * (y1 - (if 2 * err ≤ dx then y0 + sy else y0)) + 1 ≤
      sx * (x1 - x0) + sy * (y1 - y0) ∧
    (dy ≤ 2 * err →
      sx * (x1 - (x0 + sx)) = sx * (x1 - x0) - 1 ∧ 1 ≤ sx * (x1 - x0)) ∧
    (2 * err ≤ dx →
      sy * (y1 - (y0 + sy)) = sy * (y1 - y0) - 1 ∧ 1 ≤ sy * (y1 - y0)) := by
  obtain ⟨hdx, hdy, hsx, hsy, hX0, hXd, hY0, hYd, herr⟩ := hinv
  have hsx2 : sx * sx = 1 := by rcases hsx with rfl | rfl <;> ring
  have hsy2 : sy * sy = 1 := by rcases hsy with rfl | rfl <;> ring
  have hX' : sx * (x1 - (x0 + sx)) = sx * (x1 - x0) - 1 := by
    have h : sx * (x1 - (x0 + sx)) = sx * (x1 - x0) - sx * sx := by ring
    rw [h, hsx2]
  have hY' : sy * (y1 - (y0 + sy)) = sy * (y1 - y0) - 1 := by
    have h : sy * (y1 - (y0 + sy)) = sy * (y1 - y0) - sy * sy := by ring
    rw [h, hsy2]
  have hXzero : sx * (x1 - x0) = 0 → x0 = x1 := by
    intro h0
    rcases hsx with rfl | rfl <;> omega
  have hYzero : sy * (y1 - y0) = 0 → y0 = y1 := by
    intro h0
    rcases hsy with rfl | rfl <;> omega
  have hXpos : dy ≤ 2 * err → 1 ≤ sx * (x1 - x0) := by
    intro hcx
    rcases eq_or_lt_of_le hX0 with heq | hlt
    · exfalso
      have hx01 : x0 = x1 := hXzero heq.symm
      have hy : ¬ y0 = y1 := fun hy => hdone ⟨hx01, hy⟩
      have hY1 : 1 ≤ sy * (y1 - y0) := by
        rcases eq_or_lt_of_le hY0 with heq2 | hlt2
        · exact absurd (hYzero heq2.symm) hy
        · linarith
      exact bres_no_x_overshoot
        ⟨hdx, hdy, hsx, hsy, hX0, hXd, hY0, hYd, herr⟩ heq.symm hY1 hcx
    · linarith
  have hYpos : 2 * err ≤ dx → 1 ≤ sy * (y1 - y0) := by
    intro hcy
    rcases eq_or_lt_of_le hY0 with heq | hlt
    · exfalso
      have hy01 : y0 = y1 := hYzero heq.symm
      have hx : ¬ x0 = x1 := fun hx => hdone ⟨hx, hy01⟩
      have hX1 : 1 ≤ sx * (x1 - x0) := by
        rcases eq_or_lt_of_le hX0 with heq2 | hlt2
        · exact absurd (hXzero heq2.symm) hx
        · linarith
      exact bres_no_y_overshoot
        ⟨hdx, hdy, hsx, hsy, hX0, hXd, hY0, hYd, herr⟩ heq.symm hX1 hcy
    · linarith
  by_cases hcx : dy ≤ 2 * err <;> by_cases hcy : 2 * err ≤ dx
  · -- both axes step
    have hX1 := hXpos hcx
    have hY1 := hYpos hcy
    simp only [if_pos hcx, if_pos hcy]
    refine ⟨⟨hdx, hdy, hsx, hsy, ?_, ?_, ?_, ?_, ?_⟩, ?_, ?_, ?_⟩
    · rw [hX']; linarith
    · rw [hX']; linarith
    · rw [hY']; linarith
    · rw [hY']; linarith
    · rw [hX', hY']; linear_combination herr
    · rw [hX', hY']; linarith
    · exact fun _ => ⟨hX', hX1⟩
    · exact fun _ => ⟨hY', hY1⟩
  · -- only x steps
    have hX1 := hXpos hcx
    simp only [if_pos hcx, if_neg hcy]
    refine ⟨⟨hdx, hdy, hsx, hsy, ?_, ?_, hY0, hYd, ?_⟩, ?_, ?_, ?_⟩
    · rw [hX']; linarith
    · rw [hX']; linarith
    · rw [hX']; linear_combination herr
    · rw [hX']; linarith
    · exact fun _ => ⟨hX', hX1⟩
    · exact fun h => absurd h hcy
  · -- only y steps
    have hY1 := hYpos hcy
    simp only [if_neg hcx, if_pos hcy]
    refine ⟨⟨hdx, hdy, hsx, hsy, hX0, hXd, ?_, ?_, ?_⟩, ?_, ?_, ?_⟩
    · rw [hY']; linarith
    · rw [hY']; linarith
    · rw [hY']; linear_combination herr
    · rw [hY']; linarith
    · exact fun h => absurd h hcx
    · exact fun _ => ⟨hY', hY1⟩
  · -- impossible: neither guard holds
    exfalso
    linarith

theorem plotLineLoop_spec (x1 y1 sx sy dx dy : Int) :
    ∀ (fuel : Nat) (x0 y0 err : Int),
      BresInv x1 y1 sx sy dx dy x0 y0 err →
      sx * (x1 - x0) + sy * (y1 - y0) < (fuel : Int) →
      (plotLineLoop x1 y1 sx sy dx dy fuel x0 y0 err).head? = some (x0, y0) ∧
      (plotLineLoop x1 y1 sx sy dx dy fuel x0 y0 err).getLast? = some (x1, y1) ∧
      List.Chain' stepOK (plotLineLoop x1 y1 sx sy dx dy fuel x0 y0 err) := by
  intro fuel
  induction fuel with
  | zero =>
    intro x0 y0 err hinv hf
    obtain ⟨hdx, hdy, hsx, hsy, hX0, hXd, hY0, hYd, herr⟩ := hinv
    exfalso
    push_cast at hf
    linarith
  | succ n ih =>
    intro x0 y0 err hinv hf
    by_cases hdone : x0 = x1 ∧ y0 = y1
    · obtain ⟨rfl, rfl⟩ := hdone
      simp [plotLineLoop, List.chain'_singleton]
    · obtain ⟨hadv, hdec, hxstep, hystep⟩ := bres_advance hinv hdone
      have hloop : plotLineLoop x1 y1 sx sy dx dy (n + 1) x0 y0 err =
          (x0, y0) ::
            plotLineLoop x1 y1 sx sy dx dy n
              (if dy ≤ 2 * err then x0 + sx else x0)
              (if 2 * err ≤ dx then y0 + sy else y0)
              (if 2 * err ≤ dx then (if dy ≤ 2 * err then err + dy else err) + dx
               else (if dy ≤ 2 * err then err + dy else err)) := by
        simp only [plotLineLoop, if_neg hdone]
      have hf' : sx * (x1 - (if dy ≤ 2 * err then x0 + sx else x0)) +
          sy * (y1 - (if 2 * err ≤ dx then y0 + sy else y0)) < (n : Int) := by
        push_cast at hf
        linarith
      obtain ⟨hhead, hlast, hchain⟩ := ih _ _ _ hadv hf'
      rw [hloop]
      have hsx1 : sx = 1 ∨ sx = -1 := hinv.2.2.1
      have hsy1 : sy = 1 ∨ sy = -1 := hinv.2.2.2.1
      cases hrest : plotLineLoop x1 y1 sx sy dx dy n
          (if dy ≤ 2 * err then x0 + sx else x0)
          (if 2 * err ≤ dx then y0 + sy else y0)
          (if 2 * err ≤ dx then (if dy ≤ 2 * err then err + dy else err) + dx
           else (if dy ≤ 2 * err then err + dy else err)) with
      | nil =>
        rw [hrest] at hhead
        simp at hhead
      | cons r rs =>
        rw [hrest] at hhead hlast hchain
        have hr : r = ((if dy ≤ 2 * err then x0 + sx else x0),
            (if 2 * err ≤ dx then y0 + sy else y0)) := by
          simpa using hhead
        refine ⟨rfl, ?_, ?_⟩
        · rw [List.getLast?_cons_cons]
          exact hlast
        · rw [List.chain'_cons]
          refine ⟨?_, hchain⟩
        -- the single step moves each coordinate by at most one
          rw [hr]
          constructor
          · by_cases hcx : dy ≤ 2 * err
            · rw [if_pos hcx]
              rcases hsx1 with rfl | rfl <;> simp [abs_le]
            · rw [if_neg hcx]
              simp
          · by_cases hcy : 2 * err ≤ dx
            · rw [if_pos hcy]
              rcases hsy1 with rfl | rfl <;> simp [abs_le]
            · rw [if_neg hcy]
              simp

/-- The initial state of `plot_line` satisfies the loop invariant. -/
theorem plot_line_initial (a b : Point) :
    BresInv b.1 b.2 (if a.1 < b.1 then 1 else -1) (if a.2 < b.2 then 1 else -1)
      (|b.1 - a.1|) (-|b.2 - a.2|) a.1 a.2 ((|b.1 - a.1|) + (-|b.2 - a.2|)) ∧
    (if a.1 < b.1 then (1 : Int) else -1) * (b.1 - a.1) = |b.1 - a.1| ∧
    (if a.2 < b.2 then (1 : Int) else -1) * (b.2 - a.2) = |b.2 - a.2| := by
  have hx : (if a.1 < b.1 then (1 : Int) else -1) * (b.1 - a.1) = |b.1 - a.1| := by
    by_cases h : a.1 < b.1
    · rw [if_pos h, one_mul, abs_of_nonneg (by linarith)]
    · rw [if_neg h, abs_of_nonpos (by linarith)]
      ring
  have hy : (if a.2 < b.2 then (1 : Int) else -1) * (b.2 - a.2) = |b.2 - a.2| := by
    by_cases h : a.2 < b.2
    · rw [if_pos h, one_mul, abs_of_nonneg (by linarith)]
    · rw [if_neg h, abs_of_nonpos (by linarith)]
      ring
  refine ⟨⟨abs_nonneg _, by simp [abs_nonneg], ?_, ?_, ?_, ?_, ?_, ?_, ?_⟩, hx, hy⟩
  · by_cases h : a.1 < b.1 <;> simp [h]
  · by_cases h : a.2 < b.2 <;> simp [h]
  · rw [hx]; exact abs_nonneg _
  · rw [hx]
  · rw [hy]; exact abs_nonneg _
  · rw [hy]; simp
  · rw [hx, hy]; ring

/-- Claim C5: `plot_line(a, b)` is non-empty, starts at `a`, ends at `b`,
consecutive points differ by at most one per axis, and the horizontal
example from the spec evaluates as stated. -/
theorem c5_plot_line_endpoints_and_steps (a b : Point) :
    (plot_line a b).head? = some a ∧
    (plot_line a b).getLast? = some b ∧
    List.Chain' stepOK (plot_line a b) ∧
    plot_line (0, 0) (3, 0) = [(0, 0), (1, 0), (2, 0), (3, 0)] := by
  obtain ⟨hinv, hx, hy⟩ := plot_line_initial a b
  have hfuel : (if a.1 < b.1 then (1 : Int) else -1) * (b.1 - a.1) +
      (if a.2 < b.2 then (1 : Int) else -1) * (b.2 - a.2) <
      (((|b.1 - a.1|) - (-|b.2 - a.2|) + 1).toNat : Int) := by
    rw [hx, hy]
    have h1 : (0 : Int) ≤ |b.1 - a.1| + |b.2 - a.2| + 1 := by positivity
    rw [Int.toNat_of_nonneg (by linarith)]
    linarith
  obtain ⟨hh, hl, hc⟩ := plotLineLoop_spec b.1 b.2 _ _ _ _ _ a.1 a.2 _ hinv hfuel
  exact ⟨hh, hl, hc, by decide⟩

theorem plotLineLoop_len_x (x1 y1 sx sy dx dy : Int) (hmaj : 0 ≤ dx + dy) :
    ∀ (fuel : Nat) (x0 y0 err : Int),
      BresInv x1 y1 sx sy dx dy x0 y0 err →
      dy ≤ 2 * err →
      sx * (x1 - x0) < (fuel : Int) →
      (plotLineLoop x1 y1 sx sy dx dy fuel x0 y0 err).length
        = (sx * (x1 - x0)).toNat + 1 := by
  intro fuel
  induction fuel with
  | zero =>
    intro x0 y0 err hinv hcx hf
    exfalso
    have hX0 := hinv.2.2.2.2.1
    push_cast at hf
    linarith
  | succ n ih =>
    intro x0 y0 err hinv hcx hf
    have hdx := hinv.1
    have hdy := hinv.2.1
    by_cases hdone : x0 = x1 ∧ y0 = y1
    · obtain ⟨rfl, rfl⟩ := hdone
      simp [plotLineLoop]
    · obtain ⟨hadv, hdec, hxstep, hystep⟩ := bres_advance hinv hdone
      obtain ⟨hXeq, hX1⟩ := hxstep hcx
      rw [if_pos hcx] at hadv hdec
      have hcx' : dy ≤ 2 * (if 2 * err ≤ dx then (err + dy) + dx else (err + dy)) := by
        by_cases hcy : 2 * err ≤ dx
        · rw [if_pos hcy]; linarith
        · rw [if_neg hcy]
          have : dx < 2 * err := by linarith
          linarith
      have herr2 : (if 2 * err ≤ dx then (if dy ≤ 2 * err then err + dy else err) + dx
          else (if dy ≤ 2 * err then err + dy else err)) =
          (if 2 * err ≤ dx then (err + dy) + dx else (err + dy)) := by
        rw [if_pos hcx]
      have hloop : plotLineLoop x1 y1 sx sy dx dy (n + 1) x0 y0 err =
          (x0, y0) ::
            plotLineLoop x1 y1 sx sy dx dy n (x0 + sx)
              (if 2 * err ≤ dx then y0 + sy else y0)
              (if 2 * err ≤ dx then (err + dy) + dx else (err + dy)) := by
        simp only [plotLineLoop, if_neg hdone, if_pos hcx]
      have hf' : sx * (x1 - (x0 + sx)) < (n : Int) := by
        rw [hXeq]
        push_cast at hf
        linarith
      rw [herr2] at hadv
      have hlen := ih (x0 + sx) (if 2 * err ≤ dx then y0 + sy else y0)
        (if 2 * err ≤ dx then (err + dy) + dx else (err + dy)) hadv hcx' hf'
      rw [hloop, List.length_cons, hlen, hXeq]
      have h0 : 0 ≤ sx * (x1 - x0) - 1 := by linarith
      generalize hXg : sx * (x1 - x0) = X at h0 hX1 ⊢
      omega

theorem plotLineLoop_len_y (x1 y1 sx sy dx dy : Int) (hmaj : dx + dy ≤ 0) :
    ∀ (fuel : Nat) (x0 y0 err : Int),
      BresInv x1 y1 sx sy dx dy x0 y0 err →
      2 * err ≤ dx →
      sy * (y1 - y0) < (fuel : Int) →
      (plotLineLoop x1 y1 sx sy dx dy fuel x0 y0 err).length
        = (sy * (y1 - y0)).toNat + 1 := by
  intro fuel
  induction fuel with
  | zero =>
    intro x0 y0 err hinv hcy hf
    exfalso
    have hY0 := hinv.2.2.2.2.2.2.1
    push_cast at hf
    linarith
  | succ n ih =>
    intro x0 y0 err hinv hcy hf
    have hdx := hinv.1
    have hdy := hinv.2.1
    by_cases hdone : x0 = x1 ∧ y0 = y1
    · obtain ⟨rfl, rfl⟩ := hdone
      simp [plotLineLoop]
    · obtain ⟨hadv, hdec, hxstep, hystep⟩ := bres_advance hinv hdone
      obtain ⟨hYeq, hY1⟩ := hystep hcy
      simp only [if_pos hcy] at hadv hdec
      have hcy' : 2 * ((if dy ≤ 2 * err then err + dy else err) + dx) ≤ dx := by
        by_cases hcx : dy ≤ 2 * err
        · rw [if_pos hcx]; linarith
        · rw [if_neg hcx]
          have : 2 * err < dy := by linarith
          linarith
      have hloop : plotLineLoop x1 y1 sx sy dx dy (n + 1) x0 y0 err =
          (x0, y0) ::
            plotLineLoop x1 y1 sx sy dx dy n
              (if dy ≤ 2 * err then x0 + sx else x0) (y0 + sy)
              ((if dy ≤ 2 * err then err + dy else err) + dx) := by
        simp only [plotLineLoop, if_neg hdone, if_pos hcy]
      have hf' : sy * (y1 - (y0 + sy)) < (n : Int) := by
        rw [hYeq]
        push_cast at hf
        linarith
      have hlen := ih (if dy ≤ 2 * err then x0 + sx else x0) (y0 + sy)
        ((if dy ≤ 2 * err then err + dy else err) + dx) hadv hcy' hf'
      rw [hloop, List.length_cons, hlen, hYeq]
      have h0 : 0 ≤ sy * (y1 - y0) - 1 := by linarith
      generalize hYg : sy * (y1 - y0) = Y at h0 hY1 ⊢
      omega

/-- The rasterized line always contains exactly `max |dx| |dy| + 1`
points — the Chebyshev distance between the endpoints plus one. -/
theorem plot_line_length (a b : Point) :
    (plot_line a b).length = (max (|b.1 - a.1|) (|b.2 - a.2|)).toNat + 1 := by
  obtain ⟨hinv, hx, hy⟩ := plot_line_initial a b
  by_cases hmaj : |b.2 - a.2| ≤ |b.1 - a.1|
  · have hres := plotLineLoop_len_x b.1 b.2
      (if a.1 < b.1 then 1 else -1) (if a.2 < b.2 then 1 else -1)
      (|b.1 - a.1|) (-|b.2 - a.2|) (by linarith)
      ((|b.1 - a.1|) - (-|b.2 - a.2|) + 1).toNat a.1 a.2
      ((|b.1 - a.1|) + (-|b.2 - a.2|)) hinv
      (by linarith [abs_nonneg (b.2 - a.2)])
      (by
        rw [hx, Int.toNat_of_nonneg
          (by linarith [abs_nonneg (b.1 - a.1), abs_nonneg (b.2 - a.2)])]
        linarith [abs_nonneg (b.2 - a.2)])
    rw [plot_line] at *
    rw [hres, hx, max_eq_left hmaj]
  · have hmaj2 : |b.1 - a.1| ≤ |b.2 - a.2| := by linarith
    have hres := plotLineLoop_len_y b.1 b.2
      (if a.1 < b.1 then 1 else -1) (if a.2 < b.2 then 1 else -1)
      (|b.1 - a.1|) (-|b.2 - a.2|) (by linarith)
      ((|b.1 - a.1|) - (-|b.2 - a.2|) + 1).toNat a.1 a.2
      ((|b.1 - a.1|) + (-|b.2 - a.2|)) hinv
      (by linarith [abs_nonneg (b.2 - a.2)])
      (by
        rw [hy, Int.toNat_of_nonneg
          (by linarith [abs_nonneg (b.1 - a.1), abs_nonneg (b.2 - a.2)])]
        linarith [abs_nonneg (b.1 - a.1)])
    rw [plot_line] at *
    rw [hres, hy, max_eq_right hmaj2]

/-- Claim C6 (amended): `plot_line(a,b)` and `plot_line(b,a)` have the
same number of points (the Chebyshev distance plus one) and traverse the
same pair of endpoints in opposite order, but their point sets are not in
general equal. -/
theorem c6_amended_reverse_line (a b : Point) :
    (plot_line a b).length = (plot_line b a).length ∧
    (plot_line a b).head? = some a ∧ (plot_line a b).getLast? = some b ∧
    (plot_line b a).head? = some b ∧ (plot_line b a).getLast? = some a := by
  obtain ⟨h1, h2, h3, _⟩ := c5_plot_line_endpoints_and_steps a b
  obtain ⟨h4, h5, h6, _⟩ := c5_plot_line_endpoints_and_steps b a
  refine ⟨?_, h1, h2, h4, h5⟩
  rw [plot_line_length, plot_line_length, abs_sub_comm b.1 a.1, abs_sub_comm b.2 a.2]

/-- Counterexample to claim C6 as stated: `plot_line` between (0,0) and
(2,1) passes through (1,1) in one direction but through (1,0) in the
other, so the two point sets differ. -/
theorem c6_counterexample :
    (1, 1) ∈ plot_line (0, 0) (2, 1) ∧ (1, 1) ∉ plot_line (2, 1) (0, 0) ∧
    plot_line (0, 0) (2, 1) = [(0, 0), (1, 1), (2, 1)] ∧
    plot_line (2, 1) (0, 0) = [(2, 1), (1, 0), (0, 0)] := by decide

/-! ### Sparse rectangular grid backend: `HashMap<Point, T>` (source 633-688) -/

/-- A sparse rectangular grid: the `HashMap<Point, T>` backend, as an
association list. -/
abbrev SGrid (T : Type) : Type := List (Point × T)

/-- The x coordinates of the stored keys, in storage order. -/
def xsOf {T : Type} (g : SGrid T) : List Int := g.map (fun e => e.1.1)

/-- The y coordinates of the stored keys, in storage order. -/
def ysOf {T : Type} (g : SGrid T) : List Int := g.map (fun e => e.1.2)

namespace SGrid

variable {T : Type}

/-- Source `Grid::get_value` for the `HashMap` backend. -/
def get_value (g : SGrid T) (pos : Point) : Option T := lookupA g pos

/-- Source `Grid::set_value` for the `HashMap` backend:
`*self.entry(pos).or_insert(value) = value` — create or overwrite. -/
def set_value (g : SGrid T) (pos : Point) (value : T) : SGrid T :=
  match g with
  | [] => [(pos, value)]
  | e :: rest => if e.1 = pos then (pos, value) :: rest else e :: set_value rest pos value

/-- Source `Grid::extents` for the `HashMap` backend: min/max of the key
coordinates, `unwrap_or(0)` when the map is empty. -/
def extents (g : SGrid T) : Point × Point :=
  ((listMinD (xsOf g), listMinD (ysOf g)), (listMaxD (xsOf g), listMaxD (ysOf g)))

/-- Source `flip_horizontal` (HashMap backend): `new_x = max_x - (x - min_x)`,
rebuilding the map. -/
def flip_horizontal (g : SGrid T) : SGrid T :=
  let e := extents g
  g.map (fun ent => ((e.2.1 - (ent.1.1 - e.1.1), ent.1.2), ent.2))

/-- Source `flip_vertical` (HashMap backend): `new_y = max_y - (y - min_y)`. -/
def flip_vertical (g : SGrid T) : SGrid T :=
  let e := extents g
  g.map (fun ent => ((ent.1.1, e.2.2 - (ent.1.2 - e.1.2)), ent.2))

/-- Source `transpose` (HashMap backend): swap the key coordinates. -/
def transpose (g : SGrid T) : SGrid T :=
  g.map (fun ent => ((ent.1.2, ent.1.1), ent.2))

/-- Trait-default `rotate_90_cw`: `transpose(); flip_horizontal()`. -/
def rotate_90_cw (g : SGrid T) : SGrid T := flip_horizontal (transpose g)

/-- Trait-default `rotate_180_cw`: `flip_vertical(); flip_horizontal()`. -/
def rotate_180_cw (g : SGrid T) : SGrid T := flip_horizontal (flip_vertical g)

/-- Trait-default `rotate_270_cw`: `transpose(); flip_vertical()`. -/
def rotate_270_cw (g : SGrid T) : SGrid T := flip_vertical (transpose g)

end SGrid

theorem foldl_min_map_reflect (c : Int) (xs : List Int) :
    ∀ acc : Int, (xs.map (fun x => c - x)).foldl min (c - acc) = c - xs.foldl max acc := by
  induction xs with
  | nil => intro acc; rfl
  | cons b rest ih =>
    intro acc
    have h1 : (( b :: rest).map (fun x => c - x)).foldl min (c - acc) =
        (rest.map (fun x => c - x)).foldl min (min (c - acc) (c - b)) := rfl
    have h2 : min (c - acc) (c - b) = c - max acc b := by omega
    rw [h1, h2, ih (max acc b)]
    rfl

theorem foldl_max_map_reflect (c : Int) (xs : List Int) :
    ∀ acc : Int, (xs.map (fun x => c - x)).foldl max (c - acc) = c - xs.foldl min acc := by
  induction xs with
  | nil => intro acc; rfl
  | cons b rest ih =>
    intro acc
    have h1 : (( b :: rest).map (fun x => c - x)).foldl max (c - acc) =
        (rest.map (fun x => c - x)).foldl max (max (c - acc) (c - b)) := rfl
    have h2 : max (c - acc) (c - b) = c - min acc b := by omega
    rw [h1, h2, ih (min acc b)]
    rfl

theorem listMinD_map_reflect (c : Int) (l : List Int) (h : l ≠ []) :
    listMinD (l.map (fun x => c - x)) = c - listMaxD l := by
  cases l with
  | nil => exact absurd rfl h
  | cons a xs => exact foldl_min_map_reflect c xs a

theorem listMaxD_map_reflect (c : Int) (l : List Int) (h : l ≠ []) :
    listMaxD (l.map (fun x => c - x)) = c - listMinD l := by
  cases l with
  | nil => exact absurd rfl h
  | cons a xs => exact foldl_max_map_reflect c xs a

theorem sflipH_eq {T : Type} (g : SGrid T) :
    SGrid.flip_horizontal g =
      g.map (fun e => ((listMinD (xsOf g) + listMaxD (xsOf g) - e.1.1, e.1.2), e.2)) := by
  simp only [SGrid.flip_horizontal, SGrid.extents]
  refine List.map_congr_left ?_
  intro e _
  obtain ⟨⟨x, y⟩, v⟩ := e
  have hxx : listMaxD (xsOf g) - (x - listMinD (xsOf g)) =
      listMinD (xsOf g) + listMaxD (xsOf g) - x := by ring
  simp only
  rw [hxx]

theorem sflipV_eq {T : Type} (g : SGrid T) :
    SGrid.flip_vertical g =
      g.map (fun e => ((e.1.1, listMinD (ysOf g) + listMaxD (ysOf g) - e.1.2), e.2)) := by
  simp only [SGrid.flip_vertical, SGrid.extents]
  refine List.map_congr_left ?_
  intro e _
  obtain ⟨⟨x, y⟩, v⟩ := e
  have hyy : listMaxD (ysOf g) - (y - listMinD (ysOf g)) =
      listMinD (ysOf g) + listMaxD (ysOf g) - y := by ring
  simp only
  rw [hyy]

theorem xsOf_map_key {T : Type} (g : SGrid T) (f : Point → Point) :
    xsOf (g.map (fun e => (f e.1, e.2))) = g.map (fun e => (f e.1).1) := by
  simp [xsOf, List.map_map]

theorem ysOf_map_key {T : Type} (g : SGrid T) (f : Point → Point) :
    ysOf (g.map (fun e => (f e.1, e.2))) = g.map (fun e => (f e.1).2) := by
  simp [ysOf, List.map_map]

theorem xsOf_ne_nil {T : Type} {g : SGrid T} (h : g ≠ []) : xsOf g ≠ [] := by
  simpa [xsOf] using h

theorem ysOf_ne_nil {T : Type} {g : SGrid T} (h : g ≠ []) : ysOf g ≠ [] := by
  simpa [ysOf] using h

theorem sflipH_extents {T : Type} (g : SGrid T) (h : g ≠ []) :
    listMinD (xsOf (SGrid.flip_horizontal g)) = listMinD (xsOf g) ∧
    listMaxD (xsOf (SGrid.flip_horizontal g)) = listMaxD (xsOf g) ∧
    ysOf (SGrid.flip_horizontal g) = ysOf g := by
  have hx : xsOf (SGrid.flip_horizontal g) =
      (xsOf g).map (fun x => listMinD (xsOf g) + listMaxD (xsOf g) - x) := by
    rw [sflipH_eq]
    rw [xsOf_map_key g (fun p => (listMinD (xsOf g) + listMaxD (xsOf g) - p.1, p.2))]
    simp [xsOf, List.map_map]
  refine ⟨?_, ?_, ?_⟩
  · rw [hx, listMinD_map_reflect _ _ (xsOf_ne_nil h)]
    ring
  · rw [hx, listMaxD_map_reflect _ _ (xsOf_ne_nil h)]
    ring
  · rw [sflipH_eq]
    rw [ysOf_map_key g (fun p => (listMinD (xsOf g) + listMaxD (xsOf g) - p.1, p.2))]
    rfl

theorem sflipV_extents {T : Type} (g : SGrid T) (h : g ≠ []) :
    listMinD (ysOf (SGrid.flip_vertical g)) = listMinD (ysOf g) ∧
    listMaxD (ysOf (SGrid.flip_vertical g)) = listMaxD (ysOf g) ∧
    xsOf (SGrid.flip_vertical g) = xsOf g := by
  have hy : ysOf (SGrid.flip_vertical g) =
      (ysOf g).map (fun y => listMinD (ysOf g) + listMaxD (ysOf g) - y) := by
    rw [sflipV_eq]
    rw [ysOf_map_key g (fun p => (p.1, listMinD (ysOf g) + listMaxD (ysOf g) - p.2))]
    simp [ysOf, List.map_map]
  refine ⟨?_, ?_, ?_⟩
  · rw [hy, listMinD_map_reflect _ _ (ysOf_ne_nil h)]
    ring
  · rw [hy, listMaxD_map_reflect _ _ (ysOf_ne_nil h)]
    ring
  · rw [sflipV_eq]
    rw [xsOf_map_key g (fun p => (p.1, listMinD (ysOf g) + listMaxD (ysOf g) - p.2))]
    rfl

theorem sflipH_invol {T : Type} (g : SGrid T) :
    SGrid.flip_horizontal (SGrid.flip_horizontal g) = g := by
  rcases eq_or_ne g [] with rfl | h
  · rfl
  · obtain ⟨hmin, hmax, hys⟩ := sflipH_extents g h
    rw [sflipH_eq (SGrid.flip_horizontal g), hmin, hmax, sflipH_eq g, List.map_map]
    have hpt : ∀ e ∈ g,
        ((fun e => ((listMinD (xsOf g) + listMaxD (xsOf g) - e.1.1, e.1.2), e.2)) ∘
          (fun e => ((listMinD (xsOf g) + listMaxD (xsOf g) - e.1.1, e.1.2), e.2))) e = e := by
      intro e _
      obtain ⟨⟨x, y⟩, v⟩ := e
      have hxx : listMinD (xsOf g) + listMaxD (xsOf g) -
          (listMinD (xsOf g) + listMaxD (xsOf g) - x) = x := by ring
      simp only [Function.comp]
      rw [hxx]
    rw [List.map_congr_left hpt]
    exact List.map_id g

theorem sflipV_invol {T : Type} (g : SGrid T) :
    SGrid.flip_vertical (SGrid.flip_vertical g) = g := by
  rcases eq_or_ne g [] with rfl | h
  · rfl
  · obtain ⟨hmin, hmax, hxs⟩ := sflipV_extents g h
    rw [sflipV_eq (SGrid.flip_vertical g), hmin, hmax, sflipV_eq g, List.map_map]
    have hpt : ∀ e ∈ g,
        ((fun e => ((e.1.1, listMinD (ysOf g) + listMaxD (ysOf g) - e.1.2), e.2)) ∘
          (fun e => ((e.1.1, listMinD (ysOf g) + listMaxD (ysOf g) - e.1.2), e.2))) e = e := by
      intro e _
      obtain ⟨⟨x, y⟩, v⟩ := e
      have hyy : listMinD (ysOf g) + listMaxD (ysOf g) -
          (listMinD (ysOf g) + listMaxD (ysOf g) - y) = y := by ring
      simp only [Function.comp]
      rw [hyy]
    rw [List.map_congr_left hpt]
    exact List.map_id g

theorem stranspose_invol {T : Type} (g : SGrid T) :
    SGrid.transpose (SGrid.transpose g) = g := by
  simp only [SGrid.transpose, List.map_map]
  have hpt : ∀ e ∈ g,
      ((fun (ent : Point × T) => ((ent.1.2, ent.1.1), ent.2)) ∘
        (fun (ent : Point × T) => ((ent.1.2, ent.1.1), ent.2))) e = e := by
    intro e _
    obtain ⟨⟨x, y⟩, v⟩ := e
    rfl
  rw [List.map_congr_left hpt]
  exact List.map_id g

theorem map_ne_nil {α β : Type} {l : List α} (h : l ≠ []) (f : α → β) : l.map f ≠ [] := by
  intro hc
  exact h (List.map_eq_nil_iff.mp hc)

theorem xsOf_transpose {T : Type} (g : SGrid T) : xsOf (SGrid.transpose g) = ysOf g := by
  simp [SGrid.transpose, xsOf, ysOf, List.map_map]

theorem ysOf_transpose {T : Type} (g : SGrid T) : ysOf (SGrid.transpose g) = xsOf g := by
  simp [SGrid.transpose, xsOf, ysOf, List.map_map]

theorem srot90_eq {T : Type} (g : SGrid T) :
    SGrid.rotate_90_cw g =
      g.map (fun e => ((listMinD (ysOf g) + listMaxD (ysOf g) - e.1.2, e.1.1), e.2)) := by
  show SGrid.flip_horizontal (SGrid.transpose g) = _
  rw [sflipH_eq (SGrid.transpose g), xsOf_transpose]
  simp only [SGrid.transpose, List.map_map]
  rfl

theorem srot90_extents {T : Type} (g : SGrid T) (h : g ≠ []) :
    listMinD (xsOf (SGrid.rotate_90_cw g)) = listMinD (ysOf g) ∧
    listMaxD (xsOf (SGrid.rotate_90_cw g)) = listMaxD (ysOf g) ∧
    ysOf (SGrid.rotate_90_cw g) = xsOf g := by
  have hx : xsOf (SGrid.rotate_90_cw g) =
      (ysOf g).map (fun y => listMinD (ysOf g) + listMaxD (ysOf g) - y) := by
    rw [srot90_eq]
    rw [xsOf_map_key g (fun p => (listMinD (ysOf g) + listMaxD (ysOf g) - p.2, p.1))]
    simp [ysOf, List.map_map]
  refine ⟨?_, ?_, ?_⟩
  · rw [hx, listMinD_map_reflect _ _ (ysOf_ne_nil h)]
    ring
  · rw [hx, listMaxD_map_reflect _ _ (ysOf_ne_nil h)]
    ring
  · rw [srot90_eq]
    rw [ysOf_map_key g (fun p => (listMinD (ysOf g) + listMaxD (ysOf g) - p.2, p.1))]
    rfl

theorem srot90_four {T : Type} (g : SGrid T) :
    SGrid.rotate_90_cw (SGrid.rotate_90_cw (SGrid.rotate_90_cw (SGrid.rotate_90_cw g))) = g := by
  rcases eq_or_ne g [] with rfl | h
  · rfl
  · obtain ⟨hx1min, hx1max, hy1⟩ := srot90_extents g h
    have h1 := srot90_eq g
    have hne1 : SGrid.rotate_90_cw g ≠ [] := by
      rw [h1]; exact map_ne_nil h _
    have h2 : SGrid.rotate_90_cw (SGrid.rotate_90_cw g) =
        g.map (fun e => ((listMinD (xsOf g) + listMaxD (xsOf g) - e.1.1,
          listMinD (ysOf g) + listMaxD (ysOf g) - e.1.2), e.2)) := by
      rw [srot90_eq (SGrid.rotate_90_cw g), hy1, h1, List.map_map]
      rfl
    have hy2 : ysOf (SGrid.rotate_90_cw (SGrid.rotate_90_cw g)) =
        (ysOf g).map (fun y => listMinD (ysOf g) + listMaxD (ysOf g) - y) := by
      rw [h2]
      rw [ysOf_map_key g (fun p => (listMinD (xsOf g) + listMaxD (xsOf g) - p.1,
        listMinD (ysOf g) + listMaxD (ysOf g) - p.2))]
      simp [ysOf, List.map_map]
    have hy2min : listMinD (ysOf (SGrid.rotate_90_cw (SGrid.rotate_90_cw g))) =
        listMinD (ysOf g) := by
      rw [hy2, listMinD_map_reflect _ _ (ysOf_ne_nil h)]
      ring
    have hy2max : listMaxD (ysOf (SGrid.rotate_90_cw (SGrid.rotate_90_cw g))) =
        listMaxD (ysOf g) := by
      rw [hy2, listMaxD_map_reflect _ _ (ysOf_ne_nil h)]
      ring
    have h3 : SGrid.rotate_90_cw (SGrid.rotate_90_cw (SGrid.rotate_90_cw g)) =
        g.map (fun e => ((e.1.2, listMinD (xsOf g) + listMaxD (xsOf g) - e.1.1), e.2)) := by
      rw [srot90_eq (SGrid.rotate_90_cw (SGrid.rotate_90_cw g)), hy2min, hy2max, h2,
        List.map_map]
      refine List.map_congr_left ?_
      intro e _
      obtain ⟨⟨x, y⟩, v⟩ := e
      have hyy : listMinD (ysOf g) + listMaxD (ysOf g) -
          (listMinD (ysOf g) + listMaxD (ysOf g) - y) = y := by ring
      simp only [Function.comp]
      rw [hyy]
    have hy3 : ysOf (SGrid.rotate_90_cw (SGrid.rotate_90_cw (SGrid.rotate_90_cw g))) =
        (xsOf g).map (fun x => listMinD (xsOf g) + listMaxD (xsOf g) - x) := by
      rw [h3]
      rw [ysOf_map_key g (fun p => (p.2, listMinD (xsOf g) + listMaxD (xsOf g) - p.1))]
      simp [xsOf, List.map_map]
    have hy3min : listMinD (ysOf (SGrid.rotate_90_cw (SGrid.rotate_90_cw
        (SGrid.rotate_90_cw g)))) = listMinD (xsOf g) := by
      rw [hy3, listMinD_map_reflect _ _ (xsOf_ne_nil h)]
      ring
    have hy3max : listMaxD (ysOf (SGrid.rotate_90_cw (SGrid.rotate_90_cw
        (SGrid.rotate_90_cw g)))) = listMaxD (xsOf g) := by
      rw [hy3, listMaxD_map_reflect _ _ (xsOf_ne_nil h)]
      ring
    rw [srot90_eq (SGrid.rotate_90_cw (SGrid.rotate_90_cw (SGrid.rotate_90_cw g))),
      hy3min, hy3max, h3, List.map_map]
    have hpt : ∀ e ∈ g,
        ((fun e => ((listMinD (xsOf g) + listMaxD (xsOf g) - e.1.2, e.1.1), e.2)) ∘
          (fun e => ((e.1.2, listMinD (xsOf g) + listMaxD (xsOf g) - e.1.1), e.2))) e = e := by
      intro e _
      obtain ⟨⟨x, y⟩, v⟩ := e
      have hxx : listMinD (xsOf g) + listMaxD (xsOf g) -
          (listMinD (xsOf g) + listMaxD (xsOf g) - x) = x := by ring
      simp only [Function.comp]
      rw [hxx]
    rw [List.map_congr_left hpt]
    exact List.map_id g

/-! ### Dense rectangular grid backend: `Vec<Vec<T>>` (source 690-763)

Rust indexing `self[y][x]` panics when out of range; the transform
methods are therefore embedded as `Option`-valued functions, `none`
standing for the panic. `as usize` casts wrap modulo 2^64. -/

/-- A dense rectangular grid: the `Vec<Vec<T>>` backend. -/
abbrev DGrid (T : Type) : Type := List (List T)

/-- `self.get(y).and_then(|row| row.get(x))`: checked double indexing. -/
def readCell {T : Type} (g : DGrid T) (y x : Nat) : Option T :=
  (g[y]?).bind (fun row => row[x]?)

/-- Panicking write `m[y][x] = v`, as an `Option`: `none` is the panic. -/
def writeCell {T : Type} (g : DGrid T) (y x : Nat) (v : T) : Option (DGrid T) :=
  match g[y]? with
  | none => none
  | some row => if x < row.length then some (g.set y (row.set x v)) else none

/-- Silent write through `get_mut` chains: out-of-range writes are a no-op. -/
def setCellT {T : Type} (g : DGrid T) (y x : Nat) (v : T) : DGrid T :=
  match g[y]? with
  | none => g
  | some row => if x < row.length then g.set y (row.set x v) else g

/-- The row-length profile of a dense grid. -/
def dims {T : Type} (g : DGrid T) : List Nat := g.map List.length

/-- `for i in a..=b` over `i64`, as the list of visited values. -/
def intRange (a b : Int) : List Int :=
  (List.range (b + 1 - a).toNat).map (fun i : Nat => a + (i : Int))

namespace DGrid

variable {T : Type}

/-- Source `Grid::get_value` for the `Vec<Vec<T>>` backend. -/
def get_value (g : DGrid T) (pos : Point) : Option T :=
  readCell g (usizeOfI64 pos.2) (usizeOfI64 pos.1)

/-- Source `Grid::set_value` for the `Vec<Vec<T>>` backend: silently does
nothing when the position is outside the addressable shape. -/
def set_value (g : DGrid T) (pos : Point) (value : T) : DGrid T :=
  setCellT g (usizeOfI64 pos.2) (usizeOfI64 pos.1) value

/-- Source `Grid::extents` for the `Vec<Vec<T>>` backend: width from the
first row, degenerate `((0,0),(0,0))` for an empty outer or first row. -/
def extents (g : DGrid T) : Point × Point :=
  match g with
  | [] => ((0, 0), (0, 0))
  | r :: _ =>
    if r.isEmpty then ((0, 0), (0, 0))
    else ((0, 0), (i64OfUsize (r.length - 1), i64OfUsize (g.length - 1)))

/-- Source `flip_horizontal` (Vec backend): clone, then for every cell of
the extents box write `new_vec[y][max_x - (x - min_x)] = self[y][x]`. -/
def flip_horizontal (g : DGrid T) : Option (DGrid T) :=
  let e := extents g
  (intRange e.1.2 e.2.2).foldl (fun acc y =>
    (intRange e.1.1 e.2.1).foldl (fun acc2 x =>
      acc2.bind (fun m =>
        (readCell g (usizeOfI64 y) (usizeOfI64 x)).bind (fun v =>
          writeCell m (usizeOfI64 y) (usizeOfI64 (e.2.1 - (x - e.1.1))) v)))
      acc) (some g)

/-- Source `flip_vertical` (Vec backend). -/
def flip_vertical (g : DGrid T) : Option (DGrid T) :=
  let e := extents g
  (intRange e.1.2 e.2.2).foldl (fun acc y =>
    (intRange e.1.1 e.2.1).foldl (fun acc2 x =>
      acc2.bind (fun m =>
        (readCell g (usizeOfI64 y) (usizeOfI64 x)).bind (fun v =>
          writeCell m (usizeOfI64 (e.2.2 - (y - e.1.2))) (usizeOfI64 x) v)))
      acc) (some g)

/-- Source `transpose` (Vec backend): build a default-filled matrix with
swapped dimensions, then write `new_vec[x][y] = self[y][x]`. -/
def transpose [Inhabited T] (g : DGrid T) : Option (DGrid T) :=
  let e := extents g
  let height := usizeOfI64 (e.2.2 - e.1.2 + 1)
  let init : DGrid T := (intRange e.1.1 e.2.1).map (fun _ => List.replicate height default)
  (intRange e.1.2 e.2.2).foldl (fun acc y =>
    (intRange e.1.1 e.2.1).foldl (fun acc2 x =>
      acc2.bind (fun m =>
        (readCell g (usizeOfI64 y) (usizeOfI64 x)).bind (fun v =>
          writeCell m (usizeOfI64 x) (usizeOfI64 y) v)))
      acc) (some init)

/-- Trait-default `rotate_90_cw`: `transpose(); flip_horizontal()`. -/
def rotate_90_cw [Inhabited T] (g : DGrid T) : Option (DGrid T) :=
  (transpose g).bind flip_horizontal

end DGrid

/-- All rows have the given width and the row count is the given height. -/
def Rect {T : Type} (g : DGrid T) (w h : Nat) : Prop :=
  g.length = h ∧ ∀ r ∈ g, r.length = w

/-- The cell of a dense grid, with a default for absent cells. -/
def cellD {T : Type} [Inhabited T] (g : DGrid T) (y x : Nat) : T :=
  (readCell g y x).getD default

/-- The mathematical transpose of a `h × w` grid, as a `w × h` grid. -/
def transposeSpec {T : Type} [Inhabited T] (g : DGrid T) (w h : Nat) : DGrid T :=
  (List.range w).map (fun x => (List.range h).map (fun y => cellD g y x))

theorem usizeOfI64_ofNat (n : Nat) (h : n < 2 ^ 64) : usizeOfI64 (n : Int) = n := by
  unfold usizeOfI64
  rw [Int.emod_eq_of_lt (by positivity) (by exact_mod_cast h)]
  simp

theorem i64OfUsize_small (n : Nat) (h : n < 2 ^ 63) : i64OfUsize n = (n : Int) := by
  unfold i64OfUsize
  have h1 : n % 2 ^ 64 = n := Nat.mod_eq_of_lt (by omega)
  rw [h1, if_pos (by exact_mod_cast h)]

/-- The write target `(y, x)` is inside the row-length profile. -/
def InDims {T : Type} (g : DGrid T) (y x : Nat) : Prop :=
  ∃ L, (dims g)[y]? = some L ∧ x < L

theorem dims_getElem? {T : Type} (g : DGrid T) (y : Nat) :
    (dims g)[y]? = (g[y]?).map List.length := by
  simp [dims]

theorem inDims_iff {T : Type} {g : DGrid T} {y x : Nat} :
    InDims g y x ↔ ∃ row, g[y]? = some row ∧ x < row.length := by
  unfold InDims
  rw [dims_getElem?]
  cases hrow : g[y]? with
  | none => simp
  | some row => simp

theorem inDims_of_dims_eq {T U : Type} {g : DGrid T} {g2 : DGrid U} {y x : Nat}
    (hdims : dims g2 = dims g) (h : InDims g y x) : InDims g2 y x := by
  unfold InDims at *
  rw [hdims]
  exact h


theorem writeCell_spec {T : Type} {g : DGrid T} {y x : Nat} (v : T)
    (h : InDims g y x) :
    ∃ g2, writeCell g y x v = some g2 ∧ dims g2 = dims g ∧
      readCell g2 y x = some v ∧
      (∀ y2 x2, ¬(y2 = y ∧ x2 = x) → readCell g2 y2 x2 = readCell g y2 x2) := by
  obtain ⟨row, hrow, hx⟩ := inDims_iff.mp h
  have hy : y < g.length := by
    rcases List.getElem?_eq_some_iff.mp hrow with ⟨hlt, _⟩
    exact hlt
  refine ⟨g.set y (row.set x v), ?_, ?_, ?_, ?_⟩
  · simp only [writeCell, hrow]
    rw [if_pos hx]
  · unfold dims
    rw [List.map_set]
    apply List.ext_getElem?
    intro i
    by_cases hi : y = i
    · subst hi
      rw [List.getElem?_set_self (by simpa using hy), List.getElem?_map, hrow]
      simp
    · rw [List.getElem?_set_ne hi]
  · unfold readCell
    rw [List.getElem?_set_self hy]
    simp only [Option.some_bind]
    rw [List.getElem?_set_self (by simpa using hx)]
  · intro y2 x2 hne
    unfold readCell
    by_cases hyy : y = y2
    · subst hyy
      have hxx : x ≠ x2 := by
        intro hc
        exact hne ⟨rfl, hc.symm⟩
      rw [List.getElem?_set_self hy, hrow]
      simp only [Option.some_bind]
      rw [List.getElem?_set_ne hxx]
    · rw [List.getElem?_set_ne hyy]

theorem foldl_congr_mem {α β : Type} {l : List α} {f g : β → α → β}
    (h : ∀ b, ∀ a ∈ l, f b a = g b a) : ∀ init, l.foldl f init = l.foldl g init := by
  induction l with
  | nil => intro init; rfl
  | cons a rest ih =>
    intro init
    have h1 : f init a = g init a := h init a (List.mem_cons_self a rest)
    simp only [List.foldl_cons, h1]
    exact ih (fun b a2 ha2 => h b a2 (List.mem_cons_of_mem a ha2)) (g init a)

theorem foldl_nested_product {α β γ : Type} (f : γ → α → β → γ) (ys : List α) (xs : List β) :
    ∀ init : γ,
      ys.foldl (fun acc y => xs.foldl (fun acc2 x => f acc2 y x) acc) init =
      (ys ×ˢ xs).foldl (fun acc p => f acc p.1 p.2) init := by
  induction ys with
  | nil => intro init; rfl
  | cons y rest ih =>
    intro init
    rw [List.product_cons, List.foldl_append, List.foldl_map]
    simp only [List.foldl_cons]
    exact ih _

theorem scatter_fold {T : Type} (tgt : Nat × Nat → Nat × Nat) (val : Nat × Nat → T) :
    ∀ (dom : List (Nat × Nat)) (m : DGrid T),
      (∀ c ∈ dom, InDims m (tgt c).1 (tgt c).2) →
      List.Pairwise (fun c c2 => tgt c ≠ tgt c2) dom →
      ∃ m2,
        dom.foldl (fun acc c => acc.bind (fun mm => writeCell mm (tgt c).1 (tgt c).2 (val c)))
          (some m) = some m2 ∧
        dims m2 = dims m ∧
        (∀ c ∈ dom, readCell m2 (tgt c).1 (tgt c).2 = some (val c)) ∧
        (∀ y x, (∀ c ∈ dom, tgt c ≠ (y, x)) → readCell m2 y x = readCell m y x) := by
  intro dom
  induction dom with
  | nil =>
    intro m _ _
    exact ⟨m, rfl, rfl, by simp, fun y x _ => rfl⟩
  | cons c cs ih =>
    intro m hdom hpair
    obtain ⟨hhead, htail⟩ := List.pairwise_cons.mp hpair
    obtain ⟨m1, hw, hd1, hr1, ho1⟩ :=
      writeCell_spec (g := m) (val c) (hdom c (List.mem_cons_self c cs))
    have hdom1 : ∀ c2 ∈ cs, InDims m1 (tgt c2).1 (tgt c2).2 := fun c2 hc2 =>
      inDims_of_dims_eq hd1 (hdom c2 (List.mem_cons_of_mem _ hc2))
    obtain ⟨m2, hfold, hd2, hr2, ho2⟩ := ih m1 hdom1 htail
    refine ⟨m2, ?_, ?_, ?_, ?_⟩
    · rw [List.foldl_cons]
      have hstep : (some m).bind (fun mm => writeCell mm (tgt c).1 (tgt c).2 (val c)) =
          some m1 := by
        rw [Option.some_bind]
        exact hw
      rw [hstep]
      exact hfold
    · rw [hd2, hd1]
    · intro c2 hc2
      rcases List.mem_cons.mp hc2 with rfl | hc2
      · have huntouched : ∀ c3 ∈ cs, tgt c3 ≠ ((tgt c2).1, (tgt c2).2) := by
          intro c3 hc3 hc
          exact hhead c3 hc3 (by rw [hc])
        rw [ho2 (tgt c2).1 (tgt c2).2 huntouched]
        exact hr1
      · exact hr2 c2 hc2
    · intro y x huntouched
      rw [ho2 y x (fun c3 hc3 => huntouched c3 (List.mem_cons_of_mem _ hc3))]
      refine ho1 y x ?_
      intro hc
      apply huntouched c (List.mem_cons_self c cs)
      obtain ⟨h1, h2⟩ := hc
      rw [h1, h2]

theorem rect_dims {T : Type} {g : DGrid T} {w h : Nat} (hr : Rect g w h) :
    dims g = List.replicate h w := by
  rw [List.eq_replicate_iff]
  constructor
  · simpa [dims] using hr.1
  · intro b hb
    simp only [dims, List.mem_map] at hb
    obtain ⟨r, hrm, rfl⟩ := hb
    exact hr.2 r hrm

theorem rect_row {T : Type} {g : DGrid T} {w h : Nat} (hr : Rect g w h) {y : Nat}
    (hy : y < h) : ∃ row, g[y]? = some row ∧ row.length = w := by
  have hlen : y < g.length := by
    rw [hr.1]; exact hy
  refine ⟨g[y], List.getElem?_eq_getElem hlen, hr.2 _ (List.getElem_mem hlen)⟩

theorem readCell_rect {T : Type} [Inhabited T] {g : DGrid T} {w h : Nat}
    (hr : Rect g w h) {y x : Nat} (hy : y < h) (hx : x < w) :
    readCell g y x = some (cellD g y x) := by
  obtain ⟨row, hrow, hwl⟩ := rect_row hr hy
  have hxl : x < row.length := by rw [hwl]; exact hx
  have h1 : readCell g y x = some row[x] := by
    unfold readCell
    rw [hrow]
    simp only [Option.some_bind]
    exact List.getElem?_eq_getElem hxl
  rw [h1]
  unfold cellD
  rw [h1]
  rfl

theorem readCell_dims_none {T : Type} {m : DGrid T} {w h : Nat}
    (hd : dims m = List.replicate h w) {y x : Nat} (hout : h ≤ y ∨ w ≤ x) :
    readCell m y x = none := by
  have hlen : m.length = h := by
    have := congrArg List.length hd
    simpa [dims] using this
  rcases hout with hy | hx
  · unfold readCell
    rw [List.getElem?_eq_none (by omega)]
    rfl
  · by_cases hy : y < h
    · have hrow : (dims m)[y]? = some w := by
        rw [hd]
        simp [List.getElem?_replicate, hy]
      rw [dims_getElem?] at hrow
      cases hget : m[y]? with
      | none => unfold readCell; rw [hget]; rfl
      | some row =>
        rw [hget] at hrow
        have : row.length = w := by simpa using hrow
        unfold readCell
        rw [hget]
        simp only [Option.some_bind]
        rw [List.getElem?_eq_none (by omega)]
    · unfold readCell
      rw [List.getElem?_eq_none (by omega)]
      rfl

theorem dgrid_ext {T : Type} {g1 g2 : DGrid T} (hd : dims g1 = dims g2)
    (hc : ∀ y x, readCell g1 y x = readCell g2 y x) : g1 = g2 := by
  have hlen : g1.length = g2.length := by
    have hl := congrArg List.length hd
    simpa [dims] using hl
  apply List.ext_getElem?
  intro y
  by_cases hy : y < g1.length
  · have hy2 : y < g2.length := by omega
    have h1 : g1[y]? = some g1[y] := List.getElem?_eq_getElem hy
    have h2 : g2[y]? = some g2[y] := List.getElem?_eq_getElem hy2
    rw [h1, h2]
    congr 1
    apply List.ext_getElem?
    intro x
    have hcx := hc y x
    unfold readCell at hcx
    rw [h1, h2] at hcx
    simpa using hcx
  · rw [List.getElem?_eq_none (by omega), List.getElem?_eq_none (by omega)]

theorem dense_extents_rect {T : Type} {g : DGrid T} {w h : Nat} (hr : Rect g w h)
    (hw : 1 ≤ w) (hh : 1 ≤ h) (hw2 : w < 2 ^ 63) (hh2 : h < 2 ^ 63) :
    DGrid.extents g = ((0, 0), ((w : Int) - 1, (h : Int) - 1)) := by
  obtain ⟨hlen, hrows⟩ := hr
  cases g with
  | nil => simp at hlen; omega
  | cons r rest =>
    have hrl : r.length = w := hrows r (List.mem_cons_self r rest)
    have hre : ¬ r.isEmpty := by
      rw [List.isEmpty_iff]
      intro hc
      rw [hc] at hrl
      simp at hrl
      omega
    show (if r.isEmpty then ((0, 0), (0, 0))
      else ((0, 0), (i64OfUsize (r.length - 1), i64OfUsize ((r :: rest).length - 1)))) = _
    rw [if_neg hre]
    rw [hrl, hlen]
    rw [i64OfUsize_small (w - 1) (by omega), i64OfUsize_small (h - 1) (by omega)]
    have hwc : ((w - 1 : Nat) : Int) = (w : Int) - 1 := by omega
    have hhc : ((h - 1 : Nat) : Int) = (h : Int) - 1 := by omega
    rw [hwc, hhc]

theorem pairwise_tgt_ne {tgt : Nat × Nat → Nat × Nat} {dom : List (Nat × Nat)}
    (hnd : dom.Nodup)
    (hinj : ∀ c ∈ dom, ∀ c2 ∈ dom, tgt c = tgt c2 → c = c2) :
    List.Pairwise (fun c c2 => tgt c ≠ tgt c2) dom := by
  refine hnd.imp_of_mem ?_
  intro a b ha hb hne hc
  exact hne (hinj a ha b hb hc)

theorem dims_map_reverse {T : Type} (g : DGrid T) :
    dims (g.map List.reverse) = dims g := by
  simp [dims, List.map_map]

theorem readCell_map_reverse {T : Type} {g : DGrid T} {w h : Nat} (hr : Rect g w h)
    {y x : Nat} (hy : y < h) (hx : x < w) :
    readCell (g.map List.reverse) y x = readCell g y (w - 1 - x) := by
  obtain ⟨row, hrow, hwl⟩ := rect_row hr hy
  unfold readCell
  rw [List.getElem?_map, hrow]
  show (row.reverse)[x]? = (some row).bind (fun r => r[w - 1 - x]?)
  rw [Option.some_bind]
  rw [List.getElem?_reverse (by rw [hwl]; exact hx)]
  rw [hwl]

theorem foldl_intRange_zero {γ : Type} (n : Nat) (hn : 1 ≤ n) (f : γ → Int → γ)
    (init : γ) :
    (intRange 0 ((n : Int) - 1)).foldl f init =
    (List.range n).foldl (fun acc (i : Nat) => f acc (i : Int)) init := by
  unfold intRange
  have h1 : ((n : Int) - 1 + 1 - 0).toNat = n := by omega
  rw [h1, List.foldl_map]
  refine foldl_congr_mem ?_ init
  intro b a _
  norm_num

theorem dflipH_char {T : Type} [Inhabited T] (g : DGrid T) (w h : Nat) (hr : Rect g w h)
    (hw : 1 ≤ w) (hh : 1 ≤ h) (hw2 : w < 2 ^ 63) (hh2 : h < 2 ^ 63) :
    DGrid.flip_horizontal g = some (g.map List.reverse) := by
  have hext := dense_extents_rect hr hw hh hw2 hh2
  have hA : DGrid.flip_horizontal g =
      ((List.range h) ×ˢ (List.range w)).foldl
        (fun acc c => acc.bind (fun m =>
          writeCell m c.1 (w - 1 - c.2) (cellD g c.1 c.2))) (some g) := by
    simp only [DGrid.flip_horizontal, hext]
    rw [foldl_intRange_zero h hh]
    refine Eq.trans (foldl_congr_mem ?_ (some g))
      (foldl_nested_product
        (fun acc2 (y x : Nat) => acc2.bind (fun m =>
          writeCell m y (w - 1 - x) (cellD g y x)))
        (List.range h) (List.range w) (some g))
    intro acc y hy
    rw [List.mem_range] at hy
    rw [foldl_intRange_zero w hw]
    refine foldl_congr_mem ?_ acc
    intro acc2 x hx
    rw [List.mem_range] at hx
    congr 1
    funext m
    rw [usizeOfI64_ofNat y (by omega), usizeOfI64_ofNat x (by omega),
        readCell_rect hr hy hx, Option.some_bind]
    have hcast : (w : Int) - 1 - ((x : Int) - 0) = ((w - 1 - x : Nat) : Int) := by omega
    rw [hcast, usizeOfI64_ofNat _ (by omega)]
  have hdomOK : ∀ c ∈ (List.range h) ×ˢ (List.range w),
      InDims g ((fun c : Nat × Nat => (c.1, w - 1 - c.2)) c).1
        ((fun c : Nat × Nat => (c.1, w - 1 - c.2)) c).2 := by
    intro c hc
    obtain ⟨cy, cx⟩ := c
    obtain ⟨h1, h2⟩ := List.pair_mem_product.mp hc
    rw [List.mem_range] at h1 h2
    refine ⟨w, ?_, ?_⟩
    · rw [rect_dims hr]
      simp [List.getElem?_replicate, h1]
    · show w - 1 - cx < w
      omega
  have hpair : List.Pairwise
      (fun c c2 => (fun c : Nat × Nat => (c.1, w - 1 - c.2)) c ≠
        (fun c : Nat × Nat => (c.1, w - 1 - c.2)) c2)
      ((List.range h) ×ˢ (List.range w)) := by
    refine pairwise_tgt_ne ((List.nodup_range h).product (List.nodup_range w)) ?_
    intro c hc c2 hc2 heq
    obtain ⟨cy, cx⟩ := c
    obtain ⟨dy, dx⟩ := c2
    obtain ⟨h1, h2⟩ := List.pair_mem_product.mp hc
    obtain ⟨h3, h4⟩ := List.pair_mem_product.mp hc2
    rw [List.mem_range] at h1 h2 h3 h4
    simp only [Prod.mk.injEq] at heq ⊢
    omega
  obtain ⟨m2, hfold, hd2, hcells, _⟩ :=
    scatter_fold (fun c : Nat × Nat => (c.1, w - 1 - c.2)) (fun c => cellD g c.1 c.2)
      ((List.range h) ×ˢ (List.range w)) g hdomOK hpair
  have hB : ((List.range h) ×ˢ (List.range w)).foldl
      (fun acc c => acc.bind (fun m =>
        writeCell m c.1 (w - 1 - c.2) (cellD g c.1 c.2))) (some g) = some m2 := hfold
  rw [hA, hB]
  congr 1
  apply dgrid_ext
  · rw [hd2, dims_map_reverse]
  · intro y x
    by_cases hy : y < h
    · by_cases hx : x < w
      · have hcmem : ((y, w - 1 - x) : Nat × Nat) ∈ (List.range h) ×ˢ (List.range w) :=
          List.pair_mem_product.mpr ⟨List.mem_range.mpr hy, List.mem_range.mpr (by omega)⟩
        have hcell := hcells (y, w - 1 - x) hcmem
        have htgteq : w - 1 - (w - 1 - x) = x := by omega
        rw [htgteq] at hcell
        rw [hcell, readCell_map_reverse hr hy hx, readCell_rect hr hy (by omega)]
      · rw [readCell_dims_none (by rw [hd2]; exact rect_dims hr) (Or.inr (by omega)),
            readCell_dims_none (by rw [dims_map_reverse]; exact rect_dims hr)
              (Or.inr (by omega))]
    · rw [readCell_dims_none (by rw [hd2]; exact rect_dims hr) (Or.inl (by omega)),
          readCell_dims_none (by rw [dims_map_reverse]; exact rect_dims hr)
            (Or.inl (by omega))]

theorem dims_reverse {T : Type} (g : DGrid T) : dims g.reverse = (dims g).reverse := by
  simp [dims]

theorem readCell_grid_reverse {T : Type} {g : DGrid T} {w h : Nat} (hr : Rect g w h)
    {y x : Nat} (hy : y < h) :
    readCell g.reverse y x = readCell g (h - 1 - y) x := by
  unfold readCell
  have hyl : y < g.length := by rw [hr.1]; exact hy
  rw [List.getElem?_reverse hyl, hr.1]

theorem dflipV_char {T : Type} [Inhabited T] (g : DGrid T) (w h : Nat) (hr : Rect g w h)
    (hw : 1 ≤ w) (hh : 1 ≤ h) (hw2 : w < 2 ^ 63) (hh2 : h < 2 ^ 63) :
    DGrid.flip_vertical g = some g.reverse := by
  have hext := dense_extents_rect hr hw hh hw2 hh2
  have hA : DGrid.flip_vertical g =
      ((List.range h) ×ˢ (List.range w)).foldl
        (fun acc c => acc.bind (fun m =>
          writeCell m (h - 1 - c.1) c.2 (cellD g c.1 c.2))) (some g) := by
    simp only [DGrid.flip_vertical, hext]
    rw [foldl_intRange_zero h hh]
    refine Eq.trans (foldl_congr_mem ?_ (some g))
      (foldl_nested_product
        (fun acc2 (y x : Nat) => acc2.bind (fun m =>
          writeCell m (h - 1 - y) x (cellD g y x)))
        (List.range h) (List.range w) (some g))
    intro acc y hy
    rw [List.mem_range] at hy
    rw [foldl_intRange_zero w hw]
    refine foldl_congr_mem ?_ acc
    intro acc2 x hx
    rw [List.mem_range] at hx
    congr 1
    funext m
    rw [usizeOfI64_ofNat y (by omega), usizeOfI64_ofNat x (by omega),
        readCell_rect hr hy hx, Option.some_bind]
    have hcast : (h : Int) - 1 - ((y : Int) - 0) = ((h - 1 - y : Nat) : Int) := by omega
    rw [hcast, usizeOfI64_ofNat _ (by omega)]
  have hdomOK : ∀ c ∈ (List.range h) ×ˢ (List.range w),
      InDims g ((fun c : Nat × Nat => (h - 1 - c.1, c.2)) c).1
        ((fun c : Nat × Nat => (h - 1 - c.1, c.2)) c).2 := by
    intro c hc
    obtain ⟨cy, cx⟩ := c
    obtain ⟨h1, h2⟩ := List.pair_mem_product.mp hc
    rw [List.mem_range] at h1 h2
    refine ⟨w, ?_, ?_⟩
    · rw [rect_dims hr]
      have hlt : h - 1 - cy < h := by omega
      simp [List.getElem?_replicate, hlt]
    · show cx < w
      omega
  have hpair : List.Pairwise
      (fun c c2 => (fun c : Nat × Nat => (h - 1 - c.1, c.2)) c ≠
        (fun c : Nat × Nat => (h - 1 - c.1, c.2)) c2)
      ((List.range h) ×ˢ (List.range w)) := by
    refine pairwise_tgt_ne ((List.nodup_range h).product (List.nodup_range w)) ?_
    intro c hc c2 hc2 heq
    obtain ⟨cy, cx⟩ := c
    obtain ⟨dy, dx⟩ := c2
    obtain ⟨h1, h2⟩ := List.pair_mem_product.mp hc
    obtain ⟨h3, h4⟩ := List.pair_mem_product.mp hc2
    rw [List.mem_range] at h1 h2 h3 h4
    simp only [Prod.mk.injEq] at heq ⊢
    omega
  obtain ⟨m2, hfold, hd2, hcells, _⟩ :=
    scatter_fold (fun c : Nat × Nat => (h - 1 - c.1, c.2)) (fun c => cellD g c.1 c.2)
      ((List.range h) ×ˢ (List.range w)) g hdomOK hpair
  have hB : ((List.range h) ×ˢ (List.range w)).foldl
      (fun acc c => acc.bind (fun m =>
        writeCell m (h - 1 - c.1) c.2 (cellD g c.1 c.2))) (some g) = some m2 := hfold
  rw [hA, hB]
  congr 1
  apply dgrid_ext
  · rw [hd2, dims_reverse, rect_dims hr, List.reverse_replicate]
  · intro y x
    by_cases hy : y < h
    · by_cases hx : x < w
      · have hcmem : ((h - 1 - y, x) : Nat × Nat) ∈ (List.range h) ×ˢ (List.range w) :=
          List.pair_mem_product.mpr ⟨List.mem_range.mpr (by omega), List.mem_range.mpr hx⟩
        have hcell := hcells (h - 1 - y, x) hcmem
        have htgteq : h - 1 - (h - 1 - y) = y := by omega
        rw [htgteq] at hcell
        rw [hcell, readCell_grid_reverse hr hy, readCell_rect hr (by omega) hx]
      · rw [readCell_dims_none (by rw [hd2]; exact rect_dims hr) (Or.inr (by omega)),
            readCell_dims_none
              (by rw [dims_reverse, rect_dims hr, List.reverse_replicate]) (Or.inr (by omega))]
    · rw [readCell_dims_none (by rw [hd2]; exact rect_dims hr) (Or.inl (by omega)),
          readCell_dims_none
            (by rw [dims_reverse, rect_dims hr, List.reverse_replicate]) (Or.inl (by omega))]

theorem transposeSpec_dims {T : Type} [Inhabited T] (g : DGrid T) (w h : Nat) :
    dims (transposeSpec g w h) = List.replicate w h := by
  rw [List.eq_replicate_iff]
  constructor
  · simp [dims, transposeSpec]
  · intro b hb
    simp only [dims, transposeSpec, List.map_map, List.mem_map] at hb
    obtain ⟨i, _, rfl⟩ := hb
    simp [Function.comp]

theorem readCell_transposeSpec {T : Type} [Inhabited T] (g : DGrid T) {w h y x : Nat}
    (hy : y < w) (hx : x < h) :
    readCell (transposeSpec g w h) y x = some (cellD g x y) := by
  unfold readCell transposeSpec
  rw [List.getElem?_map, List.getElem?_range hy]
  simp only [Option.map_some', Option.some_bind]
  rw [List.getElem?_map, List.getElem?_range hx]
  rfl

theorem intRange_length (a b : Int) : (intRange a b).length = (b + 1 - a).toNat := by
  simp [intRange]

theorem dtranspose_char {T : Type} [Inhabited T] (g : DGrid T) (w h : Nat) (hr : Rect g w h)
    (hw : 1 ≤ w) (hh : 1 ≤ h) (hw2 : w < 2 ^ 63) (hh2 : h < 2 ^ 63) :
    DGrid.transpose g = some (transposeSpec g w h) := by
  have hext := dense_extents_rect hr hw hh hw2 hh2
  have hinit : (intRange 0 ((w : Int) - 1)).map
      (fun _ => List.replicate (usizeOfI64 ((h : Int) - 1 - 0 + 1)) (default : T)) =
      List.replicate w (List.replicate h default) := by
    have hcast : (h : Int) - 1 - 0 + 1 = ((h : Nat) : Int) := by omega
    rw [hcast, usizeOfI64_ofNat h (by omega)]
    rw [List.eq_replicate_iff]
    constructor
    · rw [List.length_map, intRange_length]
      omega
    · intro b hb
      rw [List.mem_map] at hb
      obtain ⟨_, _, rfl⟩ := hb
      rfl
  have hA : DGrid.transpose g =
      ((List.range h) ×ˢ (List.range w)).foldl
        (fun acc c => acc.bind (fun m =>
          writeCell m c.2 c.1 (cellD g c.1 c.2)))
        (some (List.replicate w (List.replicate h default))) := by
    simp only [DGrid.transpose, hext]
    rw [hinit]
    rw [foldl_intRange_zero h hh]
    refine Eq.trans (foldl_congr_mem ?_ _)
      (foldl_nested_product
        (fun acc2 (y x : Nat) => acc2.bind (fun m =>
          writeCell m x y (cellD g y x)))
        (List.range h) (List.range w) _)
    intro acc y hy
    rw [List.mem_range] at hy
    rw [foldl_intRange_zero w hw]
    refine foldl_congr_mem ?_ acc
    intro acc2 x hx
    rw [List.mem_range] at hx
    congr 1
    funext m
    rw [usizeOfI64_ofNat y (by omega), usizeOfI64_ofNat x (by omega),
        readCell_rect hr hy hx, Option.some_bind]
  have hdinit : dims (List.replicate w (List.replicate h (default : T))) =
      List.replicate w h := by
    rw [List.eq_replicate_iff]
    constructor
    · simp [dims]
    · intro b hb
      simp only [dims, List.mem_map] at hb
      obtain ⟨r, hrm, rfl⟩ := hb
      rw [List.eq_of_mem_replicate hrm]
      simp
  have hdomOK : ∀ c ∈ (List.range h) ×ˢ (List.range w),
      InDims (List.replicate w (List.replicate h (default : T)))
        ((fun c : Nat × Nat => (c.2, c.1)) c).1
        ((fun c : Nat × Nat => (c.2, c.1)) c).2 := by
    intro c hc
    obtain ⟨cy, cx⟩ := c
    obtain ⟨h1, h2⟩ := List.pair_mem_product.mp hc
    rw [List.mem_range] at h1 h2
    refine ⟨h, ?_, ?_⟩
    · rw [hdinit]
      simp [List.getElem?_replicate, h2]
    · show cy < h
      omega
  have hpair : List.Pairwise
      (fun c c2 => (fun c : Nat × Nat => (c.2, c.1)) c ≠
        (fun c : Nat × Nat => (c.2, c.1)) c2)
      ((List.range h) ×ˢ (List.range w)) := by
    refine pairwise_tgt_ne ((List.nodup_range h).product (List.nodup_range w)) ?_
    intro c hc c2 hc2 heq
    obtain ⟨cy, cx⟩ := c
    obtain ⟨dy, dx⟩ := c2
    simp only [Prod.mk.injEq] at heq ⊢
    omega
  obtain ⟨m2, hfold, hd2, hcells, _⟩ :=
    scatter_fold (fun c : Nat × Nat => (c.2, c.1)) (fun c => cellD g c.1 c.2)
      ((List.range h) ×ˢ (List.range w))
      (List.replicate w (List.replicate h default)) hdomOK hpair
  have hB : ((List.range h) ×ˢ (List.range w)).foldl
      (fun acc c => acc.bind (fun m =>
        writeCell m c.2 c.1 (cellD g c.1 c.2)))
      (some (List.replicate w (List.replicate h default))) = some m2 := hfold
  rw [hA, hB]
  congr 1
  apply dgrid_ext
  · rw [hd2, hdinit, transposeSpec_dims]
  · intro y x
    by_cases hy : y < w
    · by_cases hx : x < h
      · have hcmem : ((x, y) : Nat × Nat) ∈ (List.range h) ×ˢ (List.range w) :=
          List.pair_mem_product.mpr ⟨List.mem_range.mpr hx, List.mem_range.mpr hy⟩
        have hcell := hcells (x, y) hcmem
        rw [hcell, readCell_transposeSpec g hy hx]
      · rw [readCell_dims_none (by rw [hd2]; exact hdinit) (Or.inr (by omega)),
            readCell_dims_none (transposeSpec_dims g w h) (Or.inr (by omega))]
    · rw [readCell_dims_none (by rw [hd2]; exact hdinit) (Or.inl (by omega)),
          readCell_dims_none (transposeSpec_dims g w h) (Or.inl (by omega))]

theorem rect_map_reverse {T : Type} {g : DGrid T} {w h : Nat} (hr : Rect g w h) :
    Rect (g.map List.reverse) w h := by
  constructor
  · rw [List.length_map]; exact hr.1
  · intro r hrm
    rw [List.mem_map] at hrm
    obtain ⟨r0, hr0, rfl⟩ := hrm
    rw [List.length_reverse]
    exact hr.2 r0 hr0

theorem rect_reverse {T : Type} {g : DGrid T} {w h : Nat} (hr : Rect g w h) :
    Rect g.reverse w h := by
  constructor
  · rw [List.length_reverse]; exact hr.1
  · intro r hrm
    rw [List.mem_reverse] at hrm
    exact hr.2 r hrm

theorem rect_transposeSpec {T : Type} [Inhabited T] (g : DGrid T) (w h : Nat) :
    Rect (transposeSpec g w h) h w := by
  constructor
  · simp [transposeSpec]
  · intro r hrm
    simp only [transposeSpec, List.mem_map] at hrm
    obtain ⟨i, _, rfl⟩ := hrm
    simp

theorem cellD_transposeSpec {T : Type} [Inhabited T] (g : DGrid T) {w h y x : Nat}
    (hy : y < w) (hx : x < h) :
    cellD (transposeSpec g w h) y x = cellD g x y := by
  unfold cellD
  rw [readCell_transposeSpec g hy hx]
  rfl

theorem transposeSpec_invol {T : Type} [Inhabited T] {g : DGrid T} {w h : Nat}
    (hr : Rect g w h) :
    transposeSpec (transposeSpec g w h) h w = g := by
  apply dgrid_ext
  · rw [transposeSpec_dims, rect_dims hr]
  · intro y x
    by_cases hy : y < h
    · by_cases hx : x < w
      · rw [readCell_transposeSpec _ hy hx, readCell_rect hr hy hx,
          cellD_transposeSpec _ hx hy]
      · rw [readCell_dims_none (transposeSpec_dims _ h w) (Or.inr (by omega)),
            readCell_dims_none (rect_dims hr) (Or.inr (by omega))]
    · rw [readCell_dims_none (transposeSpec_dims _ h w) (Or.inl (by omega)),
          readCell_dims_none (rect_dims hr) (Or.inl (by omega))]

/-- The spec-level 90-degree rotation: transpose then mirror each row. -/
def rot90Spec {T : Type} [Inhabited T] (g : DGrid T) (w h : Nat) : DGrid T :=
  (transposeSpec g w h).map List.reverse

theorem rect_rot90Spec {T : Type} [Inhabited T] (g : DGrid T) (w h : Nat) :
    Rect (rot90Spec g w h) h w :=
  rect_map_reverse (rect_transposeSpec g w h)

theorem readCell_rot90Spec {T : Type} [Inhabited T] (g : DGrid T) {w h y x : Nat}
    (hy : y < w) (hx : x < h) :
    readCell (rot90Spec g w h) y x = some (cellD g (h - 1 - x) y) := by
  unfold rot90Spec
  rw [readCell_map_reverse (rect_transposeSpec g w h) hy hx,
      readCell_transposeSpec g hy (by omega)]

theorem cellD_rot90Spec {T : Type} [Inhabited T] (g : DGrid T) {w h y x : Nat}
    (hy : y < w) (hx : x < h) :
    cellD (rot90Spec g w h) y x = cellD g (h - 1 - x) y := by
  unfold cellD
  rw [readCell_rot90Spec g hy hx]
  rfl

theorem rot90Spec_four {T : Type} [Inhabited T] {g : DGrid T} {w h : Nat}
    (hr : Rect g w h) :
    rot90Spec (rot90Spec (rot90Spec (rot90Spec g w h) h w) w h) h w = g := by
  apply dgrid_ext
  · rw [rect_dims (rect_rot90Spec _ h w), rect_dims hr]
  · intro y x
    by_cases hy : y < h
    · by_cases hx : x < w
      · rw [readCell_rot90Spec _ (show y < h from hy) (show x < w from hx)]
        rw [cellD_rot90Spec _ (show w - 1 - x < w by omega) (show y < h from hy)]
        rw [cellD_rot90Spec _ (show h - 1 - y < h by omega) (show w - 1 - x < w by omega)]
        have e1 : w - 1 - (w - 1 - x) = x := by omega
        rw [e1]
        rw [cellD_rot90Spec _ (show x < w from hx) (show h - 1 - y < h by omega)]
        have e2 : h - 1 - (h - 1 - y) = y := by omega
        rw [e2, readCell_rect hr hy hx]
      · rw [readCell_dims_none (rect_dims (rect_rot90Spec _ h w)) (Or.inr (by omega)),
            readCell_dims_none (rect_dims hr) (Or.inr (by omega))]
    · rw [readCell_dims_none (rect_dims (rect_rot90Spec _ h w)) (Or.inl (by omega)),
          readCell_dims_none (rect_dims hr) (Or.inl (by omega))]

/-! ### Pixel-buffer backend: `image::RgbImage` (source 765-816)

The `image` crate is an external dependency; its primitives are modelled
from their documented semantics (flips mirror rows/columns, rotations are
clockwise and swap the dimensions). The `transpose` composition
`rotate_270_cw(); flip_horizontal()` is repository code. Pixel
coordinates are `u32`, so `i64` positions are truncated modulo 2^32. -/

/-- An `Rgb` pixel `[u8; 3]`; the value range plays no role in the claims. -/
abbrev Rgb : Type := Nat × Nat × Nat

/-- The `RgbImage` backend: explicit `u32` dimensions plus the pixel rows. -/
structure PImg where
  width : Nat
  height : Nat
  rows : List (List Rgb)
deriving DecidableEq

/-- Well-formedness of the model: `u32` dimensions and rectangular rows. -/
def PImg.WF (img : PImg) : Prop :=
  img.width < 2 ^ 32 ∧ img.height < 2 ^ 32 ∧ Rect img.rows img.width img.height

/-- Source `Grid::get_value` for `RgbImage`: cast to `u32`, check against
`bounds()`, read the pixel. -/
def PImg.get_value (img : PImg) (pos : Point) : Option Rgb :=
  if u32OfI64 pos.1 < img.width ∧ u32OfI64 pos.2 < img.height then
    readCell img.rows (u32OfI64 pos.2) (u32OfI64 pos.1)
  else none

/-- Source `Grid::set_value` for `RgbImage`: cast to `u32`, check against
`bounds()`, put the pixel; silently drop out-of-range writes. -/
def PImg.set_value (img : PImg) (pos : Point) (v : Rgb) : PImg :=
  if u32OfI64 pos.1 < img.width ∧ u32OfI64 pos.2 < img.height then
    { img with rows := setCellT img.rows (u32OfI64 pos.2) (u32OfI64 pos.1) v }
  else img

/-- Source `Grid::extents` for `RgbImage`: `([0,0], [w-1, h-1])` as `i64`. -/
def PImg.extents (img : PImg) : Point × Point :=
  ((0, 0), ((img.width : Int) - 1, (img.height : Int) - 1))

/-- Modelled from the spec: `image::imageops::flip_horizontal_in_place`
mirrors across the vertical mid-line, i.e. reverses every row. -/
def PImg.flip_horizontal (img : PImg) : PImg :=
  { img with rows := img.rows.map List.reverse }

/-- Modelled from the spec: `image::imageops::flip_vertical_in_place`
mirrors across the horizontal mid-line, i.e. reverses the row order. -/
def PImg.flip_vertical (img : PImg) : PImg :=
  { img with rows := img.rows.reverse }

/-- Modelled from the spec: `image::imageops::rotate90` rotates the image
90 degrees clockwise (transpose, then mirror the rows), swapping the
dimensions. -/
def PImg.rotate_90_cw (img : PImg) : PImg :=
  ⟨img.height, img.width, rot90Spec img.rows img.width img.height⟩

/-- Modelled from the spec: `image::imageops::rotate270` rotates the image
270 degrees clockwise (transpose, then flip vertically). -/
def PImg.rotate_270_cw (img : PImg) : PImg :=
  ⟨img.height, img.width, (transposeSpec img.rows img.width img.height).reverse⟩

/-- Source `transpose` for `RgbImage`: `rotate_270_cw(); flip_horizontal()`. -/
def PImg.transpose (img : PImg) : PImg :=
  PImg.flip_horizontal (PImg.rotate_270_cw img)

theorem map_reverse_reverse {T : Type} (g : DGrid T) :
    (g.map List.reverse).map List.reverse = g := by
  rw [List.map_map]
  have hpt : ∀ r ∈ g, (List.reverse ∘ List.reverse) r = r := by
    intro r _
    simp [Function.comp]
  rw [List.map_congr_left hpt]
  exact List.map_id g

theorem pimg_flipH_invol (img : PImg) :
    PImg.flip_horizontal (PImg.flip_horizontal img) = img := by
  obtain ⟨w, h, rows⟩ := img
  simp only [PImg.flip_horizontal]
  rw [map_reverse_reverse]

theorem pimg_flipV_invol (img : PImg) :
    PImg.flip_vertical (PImg.flip_vertical img) = img := by
  obtain ⟨w, h, rows⟩ := img
  simp only [PImg.flip_vertical]
  rw [List.reverse_reverse]

theorem pimg_rot90_four (img : PImg) (hwf : PImg.WF img) :
    PImg.rotate_90_cw (PImg.rotate_90_cw (PImg.rotate_90_cw (PImg.rotate_90_cw img)))
      = img := by
  obtain ⟨w, h, rows⟩ := img
  obtain ⟨hw, hh, hr⟩ := hwf
  simp only [PImg.rotate_90_cw]
  rw [rot90Spec_four hr]

/-- The `transpose` composition on the pixel backend mirrors across the
anti-diagonal: cell `(y, x)` comes from cell `(h-1-x, w-1-y)`. -/
theorem readCell_antiT {T : Type} [Inhabited T] (g : DGrid T) {w h y x : Nat}
    (hy : y < w) (hx : x < h) :
    readCell (((transposeSpec g w h).reverse).map List.reverse) y x =
      some (cellD g (h - 1 - x) (w - 1 - y)) := by
  rw [readCell_map_reverse (rect_reverse (rect_transposeSpec g w h)) hy hx]
  rw [readCell_grid_reverse (rect_transposeSpec g w h) hy]
  rw [readCell_transposeSpec g (show w - 1 - y < w by omega)
      (show h - 1 - x < h by omega)]

theorem cellD_antiT {T : Type} [Inhabited T] (g : DGrid T) {w h y x : Nat}
    (hy : y < w) (hx : x < h) :
    cellD (((transposeSpec g w h).reverse).map List.reverse) y x =
      cellD g (h - 1 - x) (w - 1 - y) := by
  unfold cellD
  rw [readCell_antiT g hy hx]
  rfl

theorem rect_antiT {T : Type} [Inhabited T] (g : DGrid T) (w h : Nat) :
    Rect (((transposeSpec g w h).reverse).map List.reverse) h w :=
  rect_map_reverse (rect_reverse (rect_transposeSpec g w h))

theorem antiT_invol {T : Type} [Inhabited T] {g : DGrid T} {w h : Nat}
    (hr : Rect g w h) :
    (((transposeSpec ((((transposeSpec g w h).reverse).map List.reverse)) h w).reverse).map
      List.reverse) = g := by
  apply dgrid_ext
  · rw [rect_dims (rect_antiT _ h w), rect_dims hr]
  · intro y x
    by_cases hy : y < h
    · by_cases hx : x < w
      · rw [readCell_antiT _ (show y < h from hy) (show x < w from hx)]
        rw [cellD_antiT g (show w - 1 - x < w by omega) (show h - 1 - y < h by omega)]
        rw [readCell_rect hr hy hx]
        congr 2 <;> omega
      · rw [readCell_dims_none (rect_dims (rect_antiT _ h w)) (Or.inr (by omega)),
            readCell_dims_none (rect_dims hr) (Or.inr (by omega))]
    · rw [readCell_dims_none (rect_dims (rect_antiT _ h w)) (Or.inl (by omega)),
          readCell_dims_none (rect_dims hr) (Or.inl (by omega))]

theorem pimg_transpose_invol (img : PImg) (hwf : PImg.WF img) :
    PImg.transpose (PImg.transpose img) = img := by
  obtain ⟨w, h, rows⟩ := img
  obtain ⟨hw, hh, hr⟩ := hwf
  show PImg.mk w h
      (((transposeSpec ((((transposeSpec rows w h).reverse).map List.reverse)) h
        w).reverse).map List.reverse) = PImg.mk w h rows
  rw [antiT_invol hr]

theorem drot90_char {T : Type} [Inhabited T] (g : DGrid T) (w h : Nat) (hr : Rect g w h)
    (hw : 1 ≤ w) (hh : 1 ≤ h) (hw2 : w < 2 ^ 63) (hh2 : h < 2 ^ 63) :
    DGrid.rotate_90_cw g = some (rot90Spec g w h) := by
  unfold DGrid.rotate_90_cw
  rw [dtranspose_char g w h hr hw hh hw2 hh2, Option.some_bind,
      dflipH_char (transposeSpec g w h) h w (rect_transposeSpec g w h) hh hw hh2 hw2]
  rfl

/-- Claim C2 (amended): on a nonempty rectangular grid whose dimensions fit
in `i64`, the dense (`Vec<Vec<T>>`) transforms complete without
out-of-bounds indexing and four 90-degree rotations, or two applications of
either flip or of transpose, restore the grid; the sparse (`HashMap`) and
pixel-buffer (`RgbImage`) backends satisfy the same involution laws (the
sparse ones unconditionally). -/
theorem c2_amended_transform_involutions :
    (∀ (T : Type) [_inst : Inhabited T] (g : DGrid T) (w h : Nat),
      Rect g w h → 1 ≤ w → 1 ≤ h → w < 2 ^ 63 → h < 2 ^ 63 →
      ((((DGrid.rotate_90_cw g).bind DGrid.rotate_90_cw).bind
          DGrid.rotate_90_cw).bind DGrid.rotate_90_cw = some g ∧
       (DGrid.flip_horizontal g).bind DGrid.flip_horizontal = some g ∧
       (DGrid.flip_vertical g).bind DGrid.flip_vertical = some g ∧
       (DGrid.transpose g).bind DGrid.transpose = some g)) ∧
    (∀ (T : Type) (g : SGrid T),
      SGrid.rotate_90_cw (SGrid.rotate_90_cw (SGrid.rotate_90_cw
        (SGrid.rotate_90_cw g))) = g ∧
      SGrid.flip_horizontal (SGrid.flip_horizontal g) = g ∧
      SGrid.flip_vertical (SGrid.flip_vertical g) = g ∧
      SGrid.transpose (SGrid.transpose g) = g) ∧
    (∀ img : PImg, PImg.WF img →
      PImg.rotate_90_cw (PImg.rotate_90_cw (PImg.rotate_90_cw
        (PImg.rotate_90_cw img))) = img ∧
      PImg.flip_horizontal (PImg.flip_horizontal img) = img ∧
      PImg.flip_vertical (PImg.flip_vertical img) = img ∧
      PImg.transpose (PImg.transpose img) = img) := by
  refine ⟨?_, ?_, ?_⟩
  · intro T _inst g w h hr hw hh hw2 hh2
    refine ⟨?_, ?_, ?_, ?_⟩
    · rw [drot90_char g w h hr hw hh hw2 hh2, Option.some_bind,
          drot90_char _ h w (rect_rot90Spec g w h) hh hw hh2 hw2, Option.some_bind,
          drot90_char _ w h (rect_rot90Spec _ h w) hw hh hw2 hh2, Option.some_bind,
          drot90_char _ h w (rect_rot90Spec _ w h) hh hw hh2 hw2,
          rot90Spec_four hr]
    · rw [dflipH_char g w h hr hw hh hw2 hh2, Option.some_bind,
          dflipH_char _ w h (rect_map_reverse hr) hw hh hw2 hh2,
          map_reverse_reverse]
    · rw [dflipV_char g w h hr hw hh hw2 hh2, Option.some_bind,
          dflipV_char _ w h (rect_reverse hr) hw hh hw2 hh2,
          List.reverse_reverse]
    · rw [dtranspose_char g w h hr hw hh hw2 hh2, Option.some_bind,
          dtranspose_char _ h w (rect_transposeSpec g w h) hh hw hh2 hw2,
          transposeSpec_invol hr]
  · intro T g
    exact ⟨srot90_four g, sflipH_invol g, sflipV_invol g, stranspose_invol g⟩
  · intro img hwf
    exact ⟨pimg_rot90_four img hwf, pimg_flipH_invol img, pimg_flipV_invol img,
      pimg_transpose_invol img hwf⟩

/-- Claim C2, counterexample: the grid `[[]]` is rectangular (its single
row has the first row's length), yet `rotate_90_cw` indexes cell `(0,0)`
out of bounds (a panic, modelled as `none`), so four rotations do not
return the grid; the same happens to both flips and to transpose. -/
theorem c2_counterexample :
    DGrid.rotate_90_cw ([[]] : DGrid Nat) = none ∧
    ¬ ((((DGrid.rotate_90_cw ([[]] : DGrid Nat)).bind DGrid.rotate_90_cw).bind
        DGrid.rotate_90_cw).bind DGrid.rotate_90_cw = some [[]]) ∧
    DGrid.flip_horizontal ([[]] : DGrid Nat) = none ∧
    DGrid.flip_vertical ([[]] : DGrid Nat) = none ∧
    DGrid.transpose ([[]] : DGrid Nat) = none := by
  refine ⟨by decide, ?_, by decide, by decide, by decide⟩
  intro hcontra
  have h1 : DGrid.rotate_90_cw ([[]] : DGrid Nat) = none := by decide
  rw [h1] at hcontra
  exact Option.noConfusion hcontra

/-- Claim C2, witness: the amended involution laws at the concrete dense
grid `[[1,2],[3,4]]` and the concrete 1-by-1 pixel image. -/
theorem c2_amended_transform_involutions_witness :
    ((((DGrid.rotate_90_cw ([[1, 2], [3, 4]] : DGrid Nat)).bind
        DGrid.rotate_90_cw).bind DGrid.rotate_90_cw).bind DGrid.rotate_90_cw
      = some [[1, 2], [3, 4]]) ∧
    (DGrid.transpose ([[1, 2], [3, 4]] : DGrid Nat)).bind DGrid.transpose
      = some [[1, 2], [3, 4]] ∧
    PImg.transpose (PImg.transpose ⟨1, 1, [[(5, 5, 5)]]⟩) = ⟨1, 1, [[(5, 5, 5)]]⟩ :=
  ⟨(c2_amended_transform_involutions.1 Nat [[1, 2], [3, 4]] 2 2 ⟨rfl, by decide⟩
      (by decide) (by decide) (by decide) (by decide)).1,
   (c2_amended_transform_involutions.1 Nat [[1, 2], [3, 4]] 2 2 ⟨rfl, by decide⟩
      (by decide) (by decide) (by decide) (by decide)).2.2.2,
   (c2_amended_transform_involutions.2.2 ⟨1, 1, [[(5, 5, 5)]]⟩
      ⟨by decide, by decide, rfl, by decide⟩).2.2.2⟩

/-- Claim C10 (amended): on a nonempty rectangular grid with `i64`-sized
dimensions, the dense transforms index only in range — they return a
result rather than panicking — and each result is again rectangular:
both flips keep the `w × h` shape and transpose produces an `h × w` one.
The nonemptiness is required: on `[[]]` (rectangular, width 0) each
transform indexes out of bounds. -/
theorem c10_amended_dense_transform_safety {T : Type} [Inhabited T]
    (g : DGrid T) (w h : Nat) (hr : Rect g w h) (hw : 1 ≤ w) (hh : 1 ≤ h)
    (hw2 : w < 2 ^ 63) (hh2 : h < 2 ^ 63) :
    (DGrid.flip_horizontal g = some (g.map List.reverse) ∧
      Rect (g.map List.reverse) w h) ∧
    (DGrid.flip_vertical g = some g.reverse ∧ Rect g.reverse w h) ∧
    (DGrid.transpose g = some (transposeSpec g w h) ∧
      Rect (transposeSpec g w h) h w) :=
  ⟨⟨dflipH_char g w h hr hw hh hw2 hh2, rect_map_reverse hr⟩,
   ⟨dflipV_char g w h hr hw hh hw2 hh2, rect_reverse hr⟩,
   ⟨dtranspose_char g w h hr hw hh hw2 hh2, rect_transposeSpec g w h⟩⟩

/-- Claim C10, counterexample: `[[]]` satisfies the claim's stated
precondition (every row has the first row's length), yet all three
transforms index out of bounds (modelled as `none`), because `extents`
reports the degenerate box `((0,0),(0,0))` which still contains the
unaddressable cell `(0,0)`. -/
theorem c10_counterexample :
    DGrid.flip_horizontal ([[]] : DGrid Nat) = none ∧
    DGrid.flip_vertical ([[]] : DGrid Nat) = none ∧
    DGrid.transpose ([[]] : DGrid Nat) = none ∧
    (∀ r ∈ ([[]] : DGrid Nat), r.length = ([] : List Nat).length) := by
  refine ⟨by decide, by decide, by decide, ?_⟩
  intro r hr
  rw [List.mem_singleton.mp hr]

/-- Claim C10, witness: the amended safety statement at the concrete grid
`[[1, 2]]`. -/
theorem c10_amended_dense_transform_safety_witness :
    DGrid.flip_horizontal ([[1, 2]] : DGrid Nat) = some [[2, 1]] ∧
    DGrid.transpose ([[1, 2]] : DGrid Nat) = some [[1], [2]] :=
  ⟨(c10_amended_dense_transform_safety [[1, 2]] 2 1 ⟨rfl, by decide⟩
      (by decide) (by decide) (by decide) (by decide)).1.1,
   (c10_amended_dense_transform_safety [[1, 2]] 2 1 ⟨rfl, by decide⟩
      (by decide) (by decide) (by decide) (by decide)).2.2.1⟩

/-! ### C9: out-of-range access behaviour -/

theorem sget_set_value {T : Type} (g : SGrid T) (p q : Point) (v : T) :
    SGrid.get_value (SGrid.set_value g p v) q =
      if q = p then some v else SGrid.get_value g q := by
  induction g with
  | nil =>
    simp only [SGrid.set_value, SGrid.get_value, lookupA]
    by_cases h : q = p
    · subst h
      simp
    · rw [if_neg (fun hc => h hc.symm), if_neg h]
  | cons e rest ih =>
    simp only [SGrid.set_value, SGrid.get_value] at ih ⊢
    by_cases he : e.1 = p
    · rw [if_pos he]
      simp only [lookupA]
      by_cases hq : q = p
      · subst hq
        rw [if_pos rfl, if_pos rfl]
      · rw [if_neg (fun hc => hq hc.symm), if_neg hq,
            if_neg (show ¬ e.1 = q from fun hc => hq (hc.symm.trans he))]
    · rw [if_neg he]
      simp only [lookupA]
      by_cases heq : e.1 = q
      · rw [if_pos heq, if_neg (fun hc => he (heq.trans hc)), if_pos heq]
      · rw [if_neg heq, ih]
        by_cases hq : q = p
        · rw [if_pos hq, if_pos hq]
        · rw [if_neg hq, if_neg hq, if_neg heq]

theorem lookupA_eq_none {κ T : Type} [DecidableEq κ] (g : List (κ × T)) (k : κ) :
    (∀ e ∈ g, e.1 ≠ k) → lookupA g k = none := by
  induction g with
  | nil => intro _; rfl
  | cons e rest ih =>
    intro h
    simp only [lookupA]
    rw [if_neg (h e (List.mem_cons_self e rest))]
    exact ih (fun e2 he2 => h e2 (List.mem_cons_of_mem e he2))

/-- A row index wrapped by the `usize` cast misses every list shorter than
2^63 whenever the `i64` index is negative or at least the length. -/
theorem getRow_out {T : Type} (g : List T) {y : Int}
    (hlen : (g.length : Int) < 2 ^ 63) (hy1 : -2 ^ 63 ≤ y) (hy2 : y < 2 ^ 63)
    (hout : y < 0 ∨ (g.length : Int) ≤ y) :
    g[usizeOfI64 y]? = none := by
  apply List.getElem?_eq_none
  unfold usizeOfI64
  omega

theorem readCell_row_none {T : Type} {g : DGrid T} {y x : Nat}
    (h : g[y]? = none) : readCell g y x = none := by
  simp only [readCell, h, Option.none_bind]

theorem readCell_row_some {T : Type} {g : DGrid T} {y x : Nat} {row : List T}
    (h : g[y]? = some row) : readCell g y x = row[x]? := by
  simp only [readCell, h, Option.some_bind]

theorem setCellT_row_none {T : Type} {g : DGrid T} {y x : Nat} (v : T)
    (h : g[y]? = none) : setCellT g y x v = g := by
  simp only [setCellT, h]

theorem setCellT_oob {T : Type} {g : DGrid T} {y x : Nat} (v : T) {row : List T}
    (h : g[y]? = some row) (hx : ¬ x < row.length) : setCellT g y x v = g := by
  simp only [setCellT, h, if_neg hx]

/-- Dense out-of-range access: on a grid whose dimensions fit in `i63`,
a position that is outside the addressable shape (negative coordinate,
row index past the end, or column index past its row) reads `none` and
writes nothing. -/
theorem dense_out_of_range {T : Type} (g : DGrid T) (x y : Int) (v : T)
    (hg : (g.length : Int) < 2 ^ 63) (hrows : ∀ r ∈ g, (r.length : Int) < 2 ^ 63)
    (hx1 : -2 ^ 63 ≤ x) (hx2 : x < 2 ^ 63) (hy1 : -2 ^ 63 ≤ y) (hy2 : y < 2 ^ 63)
    (hout : y < 0 ∨ (g.length : Int) ≤ y ∨ x < 0 ∨
      (0 ≤ y ∧ ∃ row, g[y.toNat]? = some row ∧ (row.length : Int) ≤ x)) :
    DGrid.get_value g (x, y) = none ∧ DGrid.set_value g (x, y) v = g := by
  have hget : DGrid.get_value g (x, y) =
      readCell g (usizeOfI64 y) (usizeOfI64 x) := rfl
  have hset : DGrid.set_value g (x, y) v =
      setCellT g (usizeOfI64 y) (usizeOfI64 x) v := rfl
  rw [hget, hset]
  rcases hout with h | h | h | ⟨hy0, row, hrow, hxlen⟩
  · have hnone := getRow_out g hg hy1 hy2 (Or.inl h)
    exact ⟨readCell_row_none hnone, setCellT_row_none v hnone⟩
  · have hnone := getRow_out g hg hy1 hy2 (Or.inr h)
    exact ⟨readCell_row_none hnone, setCellT_row_none v hnone⟩
  · cases hr : g[usizeOfI64 y]? with
    | none => exact ⟨readCell_row_none hr, setCellT_row_none v hr⟩
    | some row =>
      have hrl := hrows row (List.getElem?_mem hr)
      refine ⟨?_, setCellT_oob v hr ?_⟩
      · rw [readCell_row_some hr]
        exact getRow_out row hrl hx1 hx2 (Or.inl h)
      · unfold usizeOfI64
        omega
  · have huy : usizeOfI64 y = y.toNat := by
      unfold usizeOfI64
      omega
    have hrow2 : g[usizeOfI64 y]? = some row := by
      rw [huy]
      exact hrow
    have hxge : ¬ usizeOfI64 x < row.length := by
      unfold usizeOfI64
      omega
    refine ⟨?_, setCellT_oob v hrow2 hxge⟩
    rw [readCell_row_some hrow2]
    exact List.getElem?_eq_none (Nat.not_lt.mp hxge)

/-- Pixel-buffer out-of-range access: with both coordinates in `[0, 2^32)`
(so the `u32` cast is value-preserving), positions at or beyond the image
dimensions read `none` and write nothing. -/
theorem pimg_out_of_range (img : PImg) (x y : Int) (v : Rgb)
    (hx1 : 0 ≤ x) (hx2 : x < 2 ^ 32) (hy1 : 0 ≤ y) (hy2 : y < 2 ^ 32)
    (hout : (img.width : Int) ≤ x ∨ (img.height : Int) ≤ y) :
    PImg.get_value img (x, y) = none ∧ PImg.set_value img (x, y) v = img := by
  have hcond : ¬ (u32OfI64 x < img.width ∧ u32OfI64 y < img.height) := by
    unfold u32OfI64
    rcases hout with h | h
    · intro hc
      omega
    · intro hc
      omega
  constructor
  · unfold PImg.get_value
    rw [if_neg hcond]
  · unfold PImg.set_value
    rw [if_neg hcond]

/-- Claim C9 (amended): out-of-range reads return `none` and fixed-shape
out-of-range writes are silent no-ops, provided the position's wrapping
cast does not alias an addressable cell: on the dense backend this holds
for `i64` positions when the row count and each row length are below 2^63,
and on the pixel backend for positions in `[0, 2^32)`; sparse reads of
unpopulated keys are `none` and sparse writes always succeed, with no
proviso. -/
theorem c9_amended_out_of_range_access :
    (∀ (T : Type) (g : DGrid T) (x y : Int) (v : T),
      (g.length : Int) < 2 ^ 63 → (∀ r ∈ g, (r.length : Int) < 2 ^ 63) →
      -2 ^ 63 ≤ x → x < 2 ^ 63 → -2 ^ 63 ≤ y → y < 2 ^ 63 →
      (y < 0 ∨ (g.length : Int) ≤ y ∨ x < 0 ∨
        (0 ≤ y ∧ ∃ row, g[y.toNat]? = some row ∧ (row.length : Int) ≤ x)) →
      DGrid.get_value g (x, y) = none ∧ DGrid.set_value g (x, y) v = g) ∧
    (∀ (T : Type) (g : SGrid T) (p : Point) (v : T),
      ((∀ e ∈ g, e.1 ≠ p) → SGrid.get_value g p = none) ∧
      SGrid.get_value (SGrid.set_value g p v) p = some v) ∧
    (∀ (img : PImg) (x y : Int) (v : Rgb),
      0 ≤ x → x < 2 ^ 32 → 0 ≤ y → y < 2 ^ 32 →
      ((img.width : Int) ≤ x ∨ (img.height : Int) ≤ y) →
      PImg.get_value img (x, y) = none ∧ PImg.set_value img (x, y) v = img) := by
  refine ⟨?_, ?_, ?_⟩
  · intro T g x y v hg hrows hx1 hx2 hy1 hy2 hout
    exact dense_out_of_range g x y v hg hrows hx1 hx2 hy1 hy2 hout
  · intro T g p v
    refine ⟨lookupA_eq_none g p, ?_⟩
    rw [sget_set_value g p p v, if_pos rfl]
  · intro img x y v hx1 hx2 hy1 hy2 hout
    exact pimg_out_of_range img x y v hx1 hx2 hy1 hy2 hout

/-- Claim C9, counterexample: the position `(2^32, 0)` is outside the
extents of a 1-by-1 image, yet the `u32` cast aliases it onto pixel
`(0, 0)`: `get_value` returns the pixel and `set_value` changes the image.
Likewise on the dense backend, a row of 2^64 - 1 unit cells aliases the
negative position `(-2, 0)` onto index 2^64 - 2, so the read succeeds. -/
theorem c9_counterexample :
    PImg.get_value ⟨1, 1, [[(0, 0, 0)]]⟩ (2 ^ 32, 0) = some (0, 0, 0) ∧
    PImg.extents ⟨1, 1, [[(0, 0, 0)]]⟩ = ((0, 0), (0, 0)) ∧
    PImg.set_value ⟨1, 1, [[(0, 0, 0)]]⟩ (2 ^ 32, 0) (9, 9, 9) =
      ⟨1, 1, [[(9, 9, 9)]]⟩ ∧
    DGrid.get_value [List.replicate (2 ^ 64 - 1) ()] (-2, 0) = some () := by
  refine ⟨by decide, by decide, by decide, ?_⟩
  have u1 : usizeOfI64 0 = 0 := by decide
  have u2 : usizeOfI64 (-2) = 2 ^ 64 - 2 := by decide
  have hget : DGrid.get_value [List.replicate (2 ^ 64 - 1) ()] (-2, 0) =
      readCell [List.replicate (2 ^ 64 - 1) ()] (usizeOfI64 0) (usizeOfI64 (-2)) := rfl
  rw [hget, u1, readCell_row_some (show [List.replicate (2 ^ 64 - 1) ()][0]? =
        some (List.replicate (2 ^ 64 - 1) ()) from rfl),
      u2, List.getElem?_replicate, if_pos (by norm_num)]

/-- Claim C9, witness: the amended guarantees at a 1-by-1 dense grid read
and written at `(0, -1)`, an empty sparse grid written then read at
`(2, 3)`, and a 1-by-1 image probed at `(5, 0)`. -/
theorem c9_amended_out_of_range_access_witness :
    DGrid.get_value ([[5]] : DGrid Nat) (0, -1) = none ∧
    DGrid.set_value ([[5]] : DGrid Nat) (0, -1) 7 = [[5]] ∧
    SGrid.get_value (SGrid.set_value ([] : SGrid Nat) (2, 3) 9) (2, 3) = some 9 ∧
    PImg.get_value ⟨1, 1, [[(0, 0, 0)]]⟩ (5, 0) = none :=
  ⟨(c9_amended_out_of_range_access.1 Nat [[5]] 0 (-1) 7 (by decide) (by decide)
      (by decide) (by decide) (by decide) (by decide) (Or.inl (by decide))).1,
   (c9_amended_out_of_range_access.1 Nat [[5]] 0 (-1) 7 (by decide) (by decide)
      (by decide) (by decide) (by decide) (by decide) (Or.inl (by decide))).2,
   (c9_amended_out_of_range_access.2.1 Nat [] (2, 3) 9).2,
   (c9_amended_out_of_range_access.2.2 ⟨1, 1, [[(0, 0, 0)]]⟩ 5 0 (0, 0, 0)
      (by decide) (by decide) (by decide) (by decide) (Or.inl (by decide))).1⟩

/-! ### C4: flood fill (trait-default `Grid::fill`, verified on the
`HashMap` backend)

The Rust loop pops from the end of a `Vec`; the model keeps the stack as a
list with its head as the top, so the four guarded pushes appear in
reverse order.  The captured extents box, the `old`/`value` comparison
against the *current* grid, and the replace-first `set_value` all follow
the source. -/

/-- The number of entries currently holding `old`; the loop's termination
measure (each recoloring step removes one, since `value ≠ old`). -/
def countOld {T : Type} [DecidableEq T] (old : T) (g : SGrid T) : Nat :=
  (g.filter (fun en => en.2 = old)).length

theorem sget_nil {T : Type} (p : Point) : SGrid.get_value ([] : SGrid T) p = none := rfl

theorem countOld_set_lt {T : Type} [DecidableEq T] {g : SGrid T} {p : Point}
    {old value : T} (hv : value ≠ old) (h : SGrid.get_value g p = some old) :
    countOld old (SGrid.set_value g p value) < countOld old g := by
  induction g with
  | nil => exact absurd h (by rw [sget_nil]; exact Option.noConfusion)
  | cons en rest ih =>
    simp only [SGrid.get_value, lookupA] at h
    simp only [SGrid.set_value]
    by_cases he : en.1 = p
    · rw [if_pos he]
      rw [if_pos he] at h
      have hval : en.2 = old := Option.some.inj h
      simp only [countOld, List.filter_cons]
      rw [if_neg (by simpa using hv), if_pos (by simpa using hval)]
      simp only [List.length_cons]
      omega
    · rw [if_neg he]
      rw [if_neg he] at h
      have hlt := ih h
      simp only [countOld, List.filter_cons] at hlt ⊢
      by_cases hv2 : en.2 = old
      · rw [if_pos (by simpa using hv2), if_pos (by simpa using hv2)]
        simp only [List.length_cons]
        omega
      · rw [if_neg (by simpa using hv2), if_neg (by simpa using hv2)]
        exact hlt

/-- The neighbors the loop pushes after recoloring `p`, top of stack
first: the Rust code pushes left, right, up, down (each guarded by the
captured extents box), and the pop order off the stack is the reverse. -/
def pushedOf (e : Point × Point) (p : Point) : List Point :=
  (if p.2 < e.2.2 then [(p.1, p.2 + 1)] else []) ++
  (if e.1.2 < p.2 then [(p.1, p.2 - 1)] else []) ++
  (if p.1 < e.2.1 then [(p.1 + 1, p.2)] else []) ++
  (if e.1.1 < p.1 then [(p.1 - 1, p.2)] else [])

/-- Source `Grid::fill` inner loop: pop, test against `old`, recolor and
push the in-box neighbors. -/
def fillLoop {T : Type} [DecidableEq T] (e : Point × Point) (old value : T)
    (hne : value ≠ old) : List Point → SGrid T → SGrid T
  | [], m => m
  | p :: rest, m =>
    match hcur : SGrid.get_value m p with
    | some curr =>
      if hco : curr = old then
        fillLoop e old value hne (pushedOf e p ++ rest) (SGrid.set_value m p value)
      else fillLoop e old value hne rest m
    | none => fillLoop e old value hne rest m
termination_by todo m => (countOld old m, todo.length)
decreasing_by
  · exact Prod.Lex.left _ _ (countOld_set_lt hne (by rw [← hco]; exact hcur))
  · exact Prod.Lex.right _ (by simp [List.length_cons])
  · exact Prod.Lex.right _ (by simp [List.length_cons])

/-- Source `Grid::fill`: capture the extents once, no-op when the start is
absent or already holds `value`, otherwise run the stack loop. -/
def SGrid.fill {T : Type} [DecidableEq T] (g : SGrid T) (pos : Point)
    (value : T) : SGrid T :=
  match SGrid.get_value g pos with
  | none => g
  | some old =>
    if h : value = old then g
    else fillLoop (SGrid.extents g) old value h [pos] g

/-- 4-neighborhood adjacency on integer points. -/
def Adj (p q : Point) : Prop :=
  (q.1 = p.1 - 1 ∧ q.2 = p.2) ∨ (q.1 = p.1 + 1 ∧ q.2 = p.2) ∨
  (q.1 = p.1 ∧ q.2 = p.2 - 1) ∨ (q.1 = p.1 ∧ q.2 = p.2 + 1)

/-- Membership in a closed extents box. -/
def inBox (e : Point × Point) (p : Point) : Prop :=
  e.1.1 ≤ p.1 ∧ p.1 ≤ e.2.1 ∧ e.1.2 ≤ p.2 ∧ p.2 ≤ e.2.2

instance (p q : Point) : Decidable (Adj p q) := by
  unfold Adj
  exact inferInstance

instance (e : Point × Point) (p : Point) : Decidable (inBox e p) := by
  unfold inBox
  exact inferInstance

/-- The cell originally holds the fill's `old` value. -/
def Sprop {T : Type} (g : SGrid T) (old : T) (r : Point) : Prop :=
  SGrid.get_value g r = some old

/-- The 4-connected component of `S`-cells containing `start`, clipped to
the box `B`: what the spec says `fill` recolors. -/
inductive Reach (S B : Point → Prop) (start : Point) : Point → Prop
  | base : Reach S B start start
  | step {p q : Point} : Reach S B start p → Adj p q → B q → S q →
      Reach S B start q

theorem reach_S {S B : Point → Prop} {start q : Point} (hs : S start)
    (h : Reach S B start q) : S q := by
  induction h with
  | base => exact hs
  | step _ _ _ hSq => exact hSq

theorem reach_B {S B : Point → Prop} {start q : Point} (hb : B start)
    (h : Reach S B start q) : B q := by
  induction h with
  | base => exact hb
  | step _ _ hBq _ => exact hBq

/-- Any stored key lies inside the grid's extents box. -/
theorem mem_inBox_extents {T : Type} {g : SGrid T} {p : Point} {v : T}
    (h : SGrid.get_value g p = some v) : inBox (SGrid.extents g) p := by
  have hmem : ∃ en ∈ g, en.1 = p := by
    induction g with
    | nil => exact absurd h (by rw [sget_nil]; exact Option.noConfusion)
    | cons en rest ih =>
      simp only [SGrid.get_value, lookupA] at h
      by_cases he : en.1 = p
      · exact ⟨en, List.mem_cons_self en rest, he⟩
      · rw [if_neg he] at h
        obtain ⟨en2, hmem2, hp2⟩ := ih h
        exact ⟨en2, List.mem_cons_of_mem en hmem2, hp2⟩
  obtain ⟨en, hmem, hp⟩ := hmem
  have hx : p.1 ∈ xsOf g := by
    simp only [xsOf, List.mem_map]
    exact ⟨en, hmem, by rw [hp]⟩
  have hy : p.2 ∈ ysOf g := by
    simp only [ysOf, List.mem_map]
    exact ⟨en, hmem, by rw [hp]⟩
  exact ⟨listMinD_le_of_mem hx, le_listMaxD_of_mem hx,
    listMinD_le_of_mem hy, le_listMaxD_of_mem hy⟩

theorem mem_ite_singleton {α : Type} {c : Prop} [Decidable c] {x q : α}
    (h : q ∈ if c then [x] else []) : c ∧ q = x := by
  by_cases hc : c
  · rw [if_pos hc] at h
    exact ⟨hc, List.mem_singleton.mp h⟩
  · rw [if_neg hc] at h
    exact absurd h (List.not_mem_nil q)

/-- Every pushed neighbor of an in-box cell is in the box and adjacent. -/
theorem pushed_sound {e : Point × Point} {p q : Point} (hp : inBox e p)
    (hq : q ∈ pushedOf e p) : inBox e q ∧ Adj p q := by
  obtain ⟨h1, h2, h3, h4⟩ := hp
  unfold pushedOf at hq
  simp only [List.mem_append] at hq
  rcases hq with ((h | h) | h) | h <;>
    obtain ⟨hc, rfl⟩ := mem_ite_singleton h
  · exact ⟨⟨by omega, by omega, by omega, by omega⟩,
      Or.inr (Or.inr (Or.inr ⟨rfl, rfl⟩))⟩
  · exact ⟨⟨by omega, by omega, by omega, by omega⟩,
      Or.inr (Or.inr (Or.inl ⟨rfl, rfl⟩))⟩
  · exact ⟨⟨by omega, by omega, by omega, by omega⟩,
      Or.inr (Or.inl ⟨rfl, rfl⟩)⟩
  · exact ⟨⟨by omega, by omega, by omega, by omega⟩,
      Or.inl ⟨rfl, rfl⟩⟩

/-- Every in-box adjacent neighbor is pushed. -/
theorem pushed_complete {e : Point × Point} {p q : Point} (hq : inBox e q)
    (ha : Adj p q) : q ∈ pushedOf e p := by
  obtain ⟨qx, qy⟩ := q
  obtain ⟨h1, h2, h3, h4⟩ := hq
  dsimp only at h1 h2 h3 h4
  unfold pushedOf
  simp only [List.mem_append]
  rcases ha with ⟨hx, hy⟩ | ⟨hx, hy⟩ | ⟨hx, hy⟩ | ⟨hx, hy⟩ <;>
    dsimp only at hx hy <;> subst hx <;> subst hy
  · refine Or.inr ?_
    rw [if_pos (show e.1.1 < p.1 by omega)]
    exact List.mem_singleton.mpr rfl
  · refine Or.inl (Or.inr ?_)
    rw [if_pos (show p.1 < e.2.1 by omega)]
    exact List.mem_singleton.mpr rfl
  · refine Or.inl (Or.inl (Or.inr ?_))
    rw [if_pos (show e.1.2 < p.2 by omega)]
    exact List.mem_singleton.mpr rfl
  · refine Or.inl (Or.inl (Or.inl ?_))
    rw [if_pos (show p.2 < e.2.2 by omega)]
    exact List.mem_singleton.mpr rfl

theorem fillLoop_nil {T : Type} [DecidableEq T] (e : Point × Point) (old value : T)
    (hne : value ≠ old) (m : SGrid T) : fillLoop e old value hne [] m = m := by
  rw [fillLoop]

theorem fillLoop_cons_old {T : Type} [DecidableEq T] {e : Point × Point}
    {old value : T} (hne : value ≠ old) {m : SGrid T} {p : Point}
    {rest : List Point} (h : SGrid.get_value m p = some old) :
    fillLoop e old value hne (p :: rest) m =
      fillLoop e old value hne (pushedOf e p ++ rest) (SGrid.set_value m p value) := by
  rw [fillLoop]
  split
  · rename_i curr heq
    rw [h] at heq
    injection heq with hh
    rw [dif_pos hh.symm]
  · rename_i heq
    rw [h] at heq
    exact Option.noConfusion heq

theorem fillLoop_cons_other {T : Type} [DecidableEq T] {e : Point × Point}
    {old value : T} (hne : value ≠ old) {m : SGrid T} {p : Point}
    {rest : List Point} (h : ¬ SGrid.get_value m p = some old) :
    fillLoop e old value hne (p :: rest) m = fillLoop e old value hne rest m := by
  rw [fillLoop]
  split
  · rename_i curr heq
    rw [dif_neg (fun hc => h (by rw [heq, hc]))]
  · rfl

/-- The loop invariant argument: cells are original or recolored reachable
cells (I2), pending cells are in-box and reachable if `old`-valued (I3),
uncolored `S`-neighbors of colored cells are pending (I4), and the start
is colored or pending (I5); at termination this forces the recolored set
to be exactly the reachable component. -/
theorem fillLoop_inv {T : Type} [DecidableEq T] (g : SGrid T) (e : Point × Point)
    (start : Point) (old value : T) (hne : value ≠ old) :
    ∀ (todo : List Point) (m : SGrid T),
      (∀ r, SGrid.get_value m r = SGrid.get_value g r ∨
        (Reach (Sprop g old) (inBox e) start r ∧
          SGrid.get_value m r = some value)) →
      (∀ p ∈ todo, inBox e p ∧
        (Sprop g old p → Reach (Sprop g old) (inBox e) start p)) →
      (∀ p q, Sprop g old p → SGrid.get_value m p = some value → Adj p q →
        inBox e q → Sprop g old q →
        (SGrid.get_value m q = some value ∨ q ∈ todo)) →
      (Sprop g old start →
        (SGrid.get_value m start = some value ∨ start ∈ todo)) →
      ((∀ r, SGrid.get_value (fillLoop e old value hne todo m) r =
            SGrid.get_value g r ∨
          (Reach (Sprop g old) (inBox e) start r ∧
            SGrid.get_value (fillLoop e old value hne todo m) r = some value)) ∧
       (∀ p q, Sprop g old p →
          SGrid.get_value (fillLoop e old value hne todo m) p = some value →
          Adj p q → inBox e q → Sprop g old q →
          SGrid.get_value (fillLoop e old value hne todo m) q = some value) ∧
       (Sprop g old start →
          SGrid.get_value (fillLoop e old value hne todo m) start = some value)) := by
  intro todo m
  induction todo, m using fillLoop.induct e old value hne with
  | case1 m =>
    intro I2 I3 I4 I5
    rw [fillLoop_nil]
    refine ⟨I2, ?_, ?_⟩
    · intro p q hSp hcolp hadj hbq hSq
      rcases I4 p q hSp hcolp hadj hbq hSq with h | h
      · exact h
      · exact absurd h (List.not_mem_nil q)
    · intro hs
      rcases I5 hs with h | h
      · exact h
      · exact absurd h (List.not_mem_nil start)
  | case2 p rest m hold ih =>
    intro I2 I3 I4 I5
    rw [fillLoop_cons_old hne hold]
    have hSp : Sprop g old p := by
      rcases I2 p with h | ⟨_, h⟩
      · unfold Sprop
        rw [← h]
        exact hold
      · rw [hold] at h
        exact absurd (Option.some.inj h).symm hne
    have hBp : inBox e p := (I3 p (List.mem_cons_self p rest)).1
    have hRp : Reach (Sprop g old) (inBox e) start p :=
      (I3 p (List.mem_cons_self p rest)).2 hSp
    apply ih
    · intro r
      by_cases hr : r = p
      · subst hr
        exact Or.inr ⟨hRp, by rw [sget_set_value, if_pos rfl]⟩
      · rw [sget_set_value, if_neg hr]
        exact I2 r
    · intro p2 hmem
      rcases List.mem_append.mp hmem with hmem | hmem
      · obtain ⟨hb2, ha2⟩ := pushed_sound hBp hmem
        exact ⟨hb2, fun hS2 => Reach.step hRp ha2 hb2 hS2⟩
      · exact I3 p2 (List.mem_cons_of_mem p hmem)
    · intro p2 q hS2 hcol2 hadj hbq hSq
      by_cases hq : q = p
      · subst hq
        exact Or.inl (by rw [sget_set_value, if_pos rfl])
      · rw [sget_set_value, if_neg hq]
        by_cases hp2 : p2 = p
        · subst hp2
          exact Or.inr (List.mem_append_left rest (pushed_complete hbq hadj))
        · rw [sget_set_value, if_neg hp2] at hcol2
          rcases I4 p2 q hS2 hcol2 hadj hbq hSq with h | h
          · exact Or.inl h
          · rcases List.mem_cons.mp h with h | h
            · exact absurd h hq
            · exact Or.inr (List.mem_append_right _ h)
    · intro hs
      by_cases hsp : start = p
      · subst hsp
        exact Or.inl (by rw [sget_set_value, if_pos rfl])
      · rw [sget_set_value, if_neg hsp]
        rcases I5 hs with h | h
        · exact Or.inl h
        · rcases List.mem_cons.mp h with h | h
          · exact absurd h hsp
          · exact Or.inr (List.mem_append_right _ h)
  | case3 p rest m curr hcur hco ih =>
    intro I2 I3 I4 I5
    rw [fillLoop_cons_other hne
      (by rw [hcur]; exact fun hc => hco (Option.some.inj hc))]
    have hskip : ¬ (Sprop g old p ∧ SGrid.get_value m p = SGrid.get_value g p) := by
      intro ⟨hS, hsame⟩
      rw [hcur, hS] at hsame
      exact hco (Option.some.inj hsame)
    apply ih
    · exact I2
    · exact fun p2 hmem => I3 p2 (List.mem_cons_of_mem p hmem)
    · intro p2 q hS2 hcol2 hadj hbq hSq
      rcases I4 p2 q hS2 hcol2 hadj hbq hSq with h | h
      · exact Or.inl h
      · rcases List.mem_cons.mp h with h | h
        · subst h
          rcases I2 q with h2 | ⟨_, h2⟩
          · exact absurd ⟨hSq, h2⟩ hskip
          · exact Or.inl h2
        · exact Or.inr h
    · intro hs
      rcases I5 hs with h | h
      · exact Or.inl h
      · rcases List.mem_cons.mp h with h | h
        · subst h
          rcases I2 start with h2 | ⟨_, h2⟩
          · exact absurd ⟨hs, h2⟩ hskip
          · exact Or.inl h2
        · exact Or.inr h
  | case4 p rest m hnone ih =>
    intro I2 I3 I4 I5
    rw [fillLoop_cons_other hne (by rw [hnone]; exact Option.noConfusion)]
    have hskip : ¬ Sprop g old p := by
      intro hS
      rcases I2 p with h2 | ⟨_, h2⟩
      · rw [hnone, hS] at h2
        exact Option.noConfusion h2
      · rw [hnone] at h2
        exact Option.noConfusion h2
    apply ih
    · exact I2
    · exact fun p2 hmem => I3 p2 (List.mem_cons_of_mem p hmem)
    · intro p2 q hS2 hcol2 hadj hbq hSq
      rcases I4 p2 q hS2 hcol2 hadj hbq hSq with h | h
      · exact Or.inl h
      · rcases List.mem_cons.mp h with h | h
        · subst h
          exact absurd hSq hskip
        · exact Or.inr h
    · intro hs
      rcases I5 hs with h | h
      · exact Or.inl h
      · rcases List.mem_cons.mp h with h | h
        · subst h
          exact absurd hs hskip
        · exact Or.inr h

/-- Claim C4: `fill(start, value)` is a no-op when the start is absent or
already holds `value`; otherwise it recolors exactly the 4-connected
component of `old`-valued cells containing `start`, clipped to the extents
box captured when the fill began, and leaves every other cell unchanged.
Verified on the `HashMap` backend of the trait-default `Grid::fill`. -/
theorem c4_fill_connected_component {T : Type} [DecidableEq T] (g : SGrid T)
    (start : Point) (value : T) :
    (SGrid.get_value g start = none → SGrid.fill g start value = g) ∧
    (∀ old, SGrid.get_value g start = some old → value = old →
      SGrid.fill g start value = g) ∧
    (∀ old, SGrid.get_value g start = some old → value ≠ old →
      ∀ q,
        (Reach (Sprop g old) (inBox (SGrid.extents g)) start q →
          SGrid.get_value (SGrid.fill g start value) q = some value) ∧
        (¬ Reach (Sprop g old) (inBox (SGrid.extents g)) start q →
          SGrid.get_value (SGrid.fill g start value) q =
            SGrid.get_value g q)) := by
  refine ⟨?_, ?_, ?_⟩
  · intro h
    simp only [SGrid.fill, h]
  · intro old h hv
    simp only [SGrid.fill, h]
    rw [dif_pos hv]
  · intro old h hne q
    have hB : inBox (SGrid.extents g) start := mem_inBox_extents h
    have heq : SGrid.fill g start value =
        fillLoop (SGrid.extents g) old value hne [start] g := by
      simp only [SGrid.fill, h]
      rw [dif_neg hne]
    obtain ⟨F2, F4, F5⟩ := fillLoop_inv g (SGrid.extents g) start old value hne
      [start] g
      (fun r => Or.inl rfl)
      (fun p hp => by
        rw [List.mem_singleton.mp hp]
        exact ⟨hB, fun _ => Reach.base⟩)
      (fun p2 q2 hS2 hcol2 _ _ _ => by
        rw [hS2] at hcol2
        exact absurd (Option.some.inj hcol2).symm hne)
      (fun _ => Or.inr (List.mem_singleton.mpr rfl))
    rw [heq]
    constructor
    · intro hreach
      induction hreach with
      | base => exact F5 h
      | step hp hadj hbq hSq ihq =>
        exact F4 _ _ (reach_S h hp) ihq hadj hbq hSq
    · intro hnr
      rcases F2 q with h2 | ⟨hr2, _⟩
      · exact h2
      · exact absurd hr2 hnr

/-- A concrete grid for exercising `fill`: the `old`-valued cells `(0,0)`,
`(1,0)` and `(3,0)`, with `(3,0)` cut off from the start's component. -/
def fillG : SGrid Nat := [((0, 0), 1), ((1, 0), 1), ((3, 0), 1), ((1, 1), 2)]

/-- Claim C4, witness: filling `fillG` from `(0,0)` with `7` recolors the
adjacent same-valued cell `(1,0)`, and filling at an absent position is a
no-op. -/
theorem c4_fill_connected_component_witness :
    SGrid.get_value (SGrid.fill fillG (0, 0) 7) (1, 0) = some 7 ∧
    SGrid.fill ([((0, 0), 1)] : SGrid Nat) (5, 5) 7 = [((0, 0), 1)] :=
  ⟨((c4_fill_connected_component fillG (0, 0) 7).2.2 1 (by decide) (by decide)
      (1, 0)).1
    (Reach.step Reach.base (by decide) (by decide)
      (by decide : SGrid.get_value fillG (1, 0) = some 1)),
   (c4_fill_connected_component [((0, 0), 1)] (5, 5) 7).1 (by decide)⟩
